import Mathlib

/-!
Shallow embedding of the scheduling core of the AirbnbCalendarSync
repository (file src/unnamed/part_004, class MemStorage, plus the
booking-creation path of src/server/routes.ts), together with proofs
about the claims on its specification.

Modelling conventions:
* JS timestamps are milliseconds, modelled as Nat; the local timezone is
  taken to be UTC, so Date.setHours(0,0,0,0) is flooring to a multiple of
  86400000 and Date.getDay() is (day + 4) % 7 (the Unix epoch day was a
  Thursday).
* JS arrays are lists; Array.prototype.findIndex followed by a write at
  that index is modelled as replacing the first matching element.
* Nullable columns are Option; JS truthiness of a number-or-null id is
  (it is a number and nonzero).
* Record fields never read by any modelled operation (usernames, colors,
  notes, guest names, time-of-day strings of availability windows, etc.)
  are omitted; every field that any modelled operation reads or writes is
  present.
-/

namespace ACS

/-- Milliseconds per day. -/
def msPerDay : Nat := 86400000

/-- Day index of a millisecond timestamp. -/
def dayIndex (t : Nat) : Nat := t / msPerDay

/-- JS Date.getDay(): 0 = Sunday .. 6 = Saturday. Day 0 (the epoch) was a
Thursday (= 4). -/
def getDay (t : Nat) : Nat := (dayIndex t + 4) % 7

/-- new Date(date) followed by setHours(0, 0, 0, 0). -/
def startOfDay (t : Nat) : Nat := dayIndex t * msPerDay

/-- new Date(date) followed by setHours(23, 59, 59, 999). -/
def endOfDay (t : Nat) : Nat := startOfDay t + (msPerDay - 1)

/-- users table row (fields read by the modelled operations). -/
structure User where
  id : Nat
  role : String
  cleaningCount : Int
deriving DecidableEq

/-- properties table row (fields read by the modelled operations). -/
structure Property where
  id : Nat
  defaultHousekeeperId : Option Nat
deriving DecidableEq

/-- bookings table row (fields read by the modelled operations). -/
structure Booking where
  id : Nat
  propertyId : Nat
  checkIn : Nat
  checkOut : Nat
  cleaningStatus : String
  housekeeperId : Option Nat
deriving DecidableEq

/-- housekeeper_availability table row. -/
structure Window where
  id : Nat
  housekeeperId : Nat
  dayOfWeek : Nat
  maxCleanings : Option Nat
deriving DecidableEq

/-- time_off_requests table row. -/
structure TimeOff where
  id : Nat
  housekeeperId : Nat
  startDate : Nat
  endDate : Nat
  approved : Bool
deriving DecidableEq

/-- The in-memory store of class MemStorage. -/
structure MemStorage where
  users : List User
  properties : List Property
  bookings : List Booking
  availability : List Window
  timeOff : List TimeOff
  nextUserId : Nat := 1
  nextPropertyId : Nat := 1
  nextBookingId : Nat := 1
  nextAvailabilityId : Nat := 1
  nextTimeOffId : Nat := 1
deriving DecidableEq

/-- JS truthiness of a number-or-null value. -/
def truthyOpt : Option Nat → Bool
  | some n => n != 0
  | none => false

/-- JS truthiness of a possibly-absent number-or-null value
(a field of a Partial patch object). -/
def truthyId : Option (Option Nat) → Bool
  | some (some n) => n != 0
  | _ => false

/-- Partial of the user insert shape. The internal call sites of
updateUser additionally pass cleaningCount, hence the extra field;
the validated external shape never carries cleaningCount
(insertUserSchema omits it and zod parsing strips unknown keys). -/
structure UserPatch where
  role : Option String := none
  cleaningCount : Option Int := none

/-- Object spread of a user with a patch. -/
def applyUserPatch (u : User) (p : UserPatch) : User :=
  { u with
    role := p.role.getD u.role
    cleaningCount := p.cleaningCount.getD u.cleaningCount }

/-- findIndex on users followed by a write at that index: replace the
first user with the given id by its patched version. -/
def updateFirstUser (l : List User) (id : Nat) (p : UserPatch) :
    Option User × List User :=
  match l with
  | [] => (none, [])
  | u :: rest =>
    if u.id == id then
      (some (applyUserPatch u p), applyUserPatch u p :: rest)
    else
      let r := updateFirstUser rest id p
      (r.1, u :: r.2)

/-- MemStorage.getUser. -/
def getUser (st : MemStorage) (id : Nat) : Option User :=
  st.users.find? (fun u => u.id == id)

/-- MemStorage.updateUser. -/
def updateUser (st : MemStorage) (id : Nat) (p : UserPatch) :
    Option User × MemStorage :=
  let r := updateFirstUser st.users id p
  (r.1, { st with users := r.2 })

/-- Insert shape of a user (fields the model keeps). -/
structure InsertUser where
  role : String

/-- MemStorage.createUser: fresh id, cleaningCount initialised to 0. -/
def createUser (st : MemStorage) (d : InsertUser) : User × MemStorage :=
  let u : User := { id := st.nextUserId, role := d.role, cleaningCount := 0 }
  (u, { st with users := st.users ++ [u], nextUserId := st.nextUserId + 1 })

/-- MemStorage.deleteUser. -/
def deleteUser (st : MemStorage) (id : Nat) : Bool × MemStorage :=
  let remaining := st.users.filter (fun u => u.id != id)
  (decide (st.users.length ≠ remaining.length), { st with users := remaining })

/-- MemStorage.getProperty. -/
def getProperty (st : MemStorage) (id : Nat) : Option Property :=
  st.properties.find? (fun p => p.id == id)

/-- Insert shape of a property (fields the model keeps). -/
structure InsertProperty where
  defaultHousekeeperId : Option Nat

/-- MemStorage.createProperty. -/
def createProperty (st : MemStorage) (d : InsertProperty) :
    Property × MemStorage :=
  let p : Property :=
    { id := st.nextPropertyId
      defaultHousekeeperId := d.defaultHousekeeperId }
  (p, { st with properties := st.properties ++ [p],
                nextPropertyId := st.nextPropertyId + 1 })

/-- Partial of the property insert shape. -/
structure PropertyPatch where
  defaultHousekeeperId : Option (Option Nat) := none

/-- Object spread of a property with a patch. -/
def applyPropertyPatch (p : Property) (q : PropertyPatch) : Property :=
  { p with
    defaultHousekeeperId := q.defaultHousekeeperId.getD p.defaultHousekeeperId }

/-- MemStorage.updateProperty: replace the first property with the id. -/
def updateProperty (st : MemStorage) (id : Nat) (q : PropertyPatch) :
    Option Property × MemStorage :=
  match st.properties.find? (fun p => p.id == id) with
  | none => (none, st)
  | some p =>
    let p' := applyPropertyPatch p q
    (some p',
     { st with properties :=
         st.properties.map (fun x => if x.id == id && x == p then p' else x) })

/-- MemStorage.deleteProperty: drops the property's bookings first,
without touching any cleaningCount, then drops the property. -/
def deleteProperty (st : MemStorage) (id : Nat) : Bool × MemStorage :=
  let st1 := { st with bookings := st.bookings.filter (fun b => b.propertyId != id) }
  let remaining := st1.properties.filter (fun p => p.id != id)
  (decide (st1.properties.length ≠ remaining.length),
   { st1 with properties := remaining })

/-- MemStorage.getBooking. -/
def getBooking (st : MemStorage) (id : Nat) : Option Booking :=
  st.bookings.find? (fun b => b.id == id)

/-- MemStorage.getBookingsByCheckoutDate. -/
def getBookingsByCheckoutDate (st : MemStorage) (startDate endDate : Nat) :
    List Booking :=
  st.bookings.filter
    (fun b => decide (startDate ≤ b.checkOut) && decide (b.checkOut ≤ endDate))

/-- Insert shape of a booking. -/
structure InsertBooking where
  propertyId : Nat
  checkIn : Nat
  checkOut : Nat
  cleaningStatus : String
  housekeeperId : Option Nat

/-- Partial of the booking insert shape (fields the model keeps). -/
structure BookingPatch where
  propertyId : Option Nat := none
  checkIn : Option Nat := none
  checkOut : Option Nat := none
  cleaningStatus : Option String := none
  housekeeperId : Option (Option Nat) := none

/-- Object spread of a booking with a patch. -/
def applyBookingPatch (b : Booking) (p : BookingPatch) : Booking :=
  { b with
    propertyId := p.propertyId.getD b.propertyId
    checkIn := p.checkIn.getD b.checkIn
    checkOut := p.checkOut.getD b.checkOut
    cleaningStatus := p.cleaningStatus.getD b.cleaningStatus
    housekeeperId := p.housekeeperId.getD b.housekeeperId }

/-- findIndex on bookings followed by a write at that index: replace the
first booking with the given id by its patched version. -/
def updateFirstBooking (l : List Booking) (id : Nat) (p : BookingPatch) :
    Option Booking × List Booking :=
  match l with
  | [] => (none, [])
  | b :: rest =>
    if b.id == id then
      (some (applyBookingPatch b p), applyBookingPatch b p :: rest)
    else
      let r := updateFirstBooking rest id p
      (r.1, b :: r.2)

/-- The shared increment pattern: look the housekeeper up and, when
found, write cleaningCount + 1 through updateUser. -/
def incNewCount (st : MemStorage) (newId : Nat) : MemStorage :=
  match getUser st newId with
  | some hk =>
    (updateUser st hk.id { cleaningCount := some (hk.cleaningCount + 1) }).2
  | none => st

/-- The shared guarded decrement pattern: look the previous housekeeper
up and, when found with a nonzero positive cleaningCount, write
cleaningCount - 1 through updateUser. -/
def decPrevCount (st : MemStorage) (prevId : Nat) : MemStorage :=
  match getUser st prevId with
  | some prev =>
    if prev.cleaningCount != 0 && decide (prev.cleaningCount > 0) then
      (updateUser st prev.id { cleaningCount := some (prev.cleaningCount - 1) }).2
    else st
  | none => st

/-- MemStorage.createBooking: push the booking, then, if a (truthy)
housekeeper id was supplied and that user exists, increment their
cleaningCount. -/
def createBooking (st : MemStorage) (d : InsertBooking) :
    Booking × MemStorage :=
  let b : Booking :=
    { id := st.nextBookingId
      propertyId := d.propertyId
      checkIn := d.checkIn
      checkOut := d.checkOut
      cleaningStatus := d.cleaningStatus
      housekeeperId := d.housekeeperId }
  let st1 := { st with bookings := st.bookings ++ [b],
                       nextBookingId := st.nextBookingId + 1 }
  let st2 :=
    if truthyOpt d.housekeeperId then incNewCount st1 (d.housekeeperId.getD 0)
    else st1
  (b, st2)

/-- MemStorage.updateBooking. If the patch carries a truthy housekeeper
id different from the current assignee, the new assignee's cleaningCount
is incremented (when that user exists) and the previous (truthy)
assignee's cleaningCount is decremented when it is positive; then the
booking record itself is spread with the patch. A patch that sets
housekeeperId to null is not truthy, so it skips all count updates.
This definition is the count-update half. -/
def updateBookingCounts (st : MemStorage) (existing : Booking)
    (p : BookingPatch) : MemStorage :=
  if truthyId p.housekeeperId &&
     !(p.housekeeperId.getD none == existing.housekeeperId) then
    if truthyOpt existing.housekeeperId then
      decPrevCount (incNewCount st ((p.housekeeperId.getD none).getD 0))
        (existing.housekeeperId.getD 0)
    else incNewCount st ((p.housekeeperId.getD none).getD 0)
  else st

/-- MemStorage.updateBooking: look up the booking, apply the
cleaningCount bookkeeping, then spread the booking with the patch. -/
def updateBooking (st : MemStorage) (id : Nat) (p : BookingPatch) :
    Option Booking × MemStorage :=
  match getBooking st id with
  | none => (none, st)
  | some existing =>
    ((updateFirstBooking (updateBookingCounts st existing p).bookings id p).1,
     { updateBookingCounts st existing p with
       bookings :=
         (updateFirstBooking (updateBookingCounts st existing p).bookings
           id p).2 })

/-- MemStorage.deleteBooking: decrement the assignee's positive
cleaningCount if the booking has a truthy assignee, then drop every
booking with that id. -/
def deleteBooking (st : MemStorage) (id : Nat) : Bool × MemStorage :=
  let st1 :=
    match getBooking st id with
    | some b =>
      if truthyOpt b.housekeeperId then decPrevCount st (b.housekeeperId.getD 0)
      else st
    | none => st
  let remaining := st1.bookings.filter (fun b => b.id != id)
  (decide (st1.bookings.length ≠ remaining.length),
   { st1 with bookings := remaining })

/-- MemStorage.getAvailabilitiesByHousekeeper. -/
def getAvailabilitiesByHousekeeper (st : MemStorage) (hid : Nat) :
    List Window :=
  st.availability.filter (fun a => a.housekeeperId == hid)

/-- MemStorage.getTimeOffInDateRange. -/
def getTimeOffInDateRange (st : MemStorage) (startDate endDate : Nat) :
    List TimeOff :=
  st.timeOff.filter
    (fun t => decide (startDate ≤ t.endDate) && decide (t.startDate ≤ endDate))

/-- MemStorage.getAvailableHousekeepersForDate: housekeeper-role users
that have some availability window for the date's weekday and are not on
approved time off covering the date. -/
def getAvailableHousekeepersForDate (st : MemStorage) (date : Nat) :
    List User :=
  let dayOfWeek := getDay date
  let housekeepers := st.users.filter (fun u => u.role == "housekeeper")
  let unavailableIds :=
    ((getTimeOffInDateRange st date date).filter (fun t => t.approved)).map
      (fun t => t.housekeeperId)
  housekeepers.filter (fun h =>
    !(unavailableIds.contains h.id) &&
    ((getAvailabilitiesByHousekeeper st h.id).any
      (fun a => a.dayOfWeek == dayOfWeek)))

/-- The patch written by MemStorage.assignHousekeeperToBooking. -/
def assignPatch (hid : Nat) : BookingPatch :=
  { housekeeperId := some (some hid), cleaningStatus := some "assigned" }

/-- MemStorage.assignHousekeeperToBooking. -/
def assignHousekeeperToBooking (st : MemStorage) (bookingId hid : Nat) :
    Option Booking × MemStorage :=
  updateBooking st bookingId (assignPatch hid)

/-- The running state of one autoAssignHousekeepers call: the store, the
assignedCounts map (total function, matching the ?? 0 reads; its key set
never changes after seeding) and the assignmentsMade counter. -/
structure AutoState where
  st : MemStorage
  cnt : Nat → Nat
  made : Nat

/-- assignedCounts.set(k, assignedCounts.get(k) + 1). -/
def bump (c : Nat → Nat) (k : Nat) : Nat → Nat :=
  fun j => if j = k then c k + 1 else c j

/-- One iteration of the seeding loop over the day's already assigned or
completed bookings: count the booking when it has a truthy housekeeper
id that is a key of the map (i.e. one of the available housekeepers). -/
def seedStep (availIds : List Nat) (c : Nat → Nat) (b : Booking) : Nat → Nat :=
  match b.housekeeperId with
  | some k => if k != 0 && availIds.contains k then bump c k else c
  | none => c

/-- The seeding loop over the day's already assigned or completed
bookings. -/
def seedCounts (availIds : List Nat) (assignedBookings : List Booking) :
    Nat → Nat :=
  assignedBookings.foldl (seedStep availIds) (fun _ => 0)

/-- getAvailabilitiesByHousekeeper followed by .find on the weekday:
the window consulted for a housekeeper on a given weekday. -/
def firstWindow (st : MemStorage) (hid wd : Nat) : Option Window :=
  (getAvailabilitiesByHousekeeper st hid).find? (fun a => a.dayOfWeek == wd)

/-- The capacity test of both phases: a window for the weekday exists and
the running count is strictly below its maxCleanings. A null
maxCleanings compares as 0 in MemStorage (JS: count < null is false). -/
def underCapacity (s : AutoState) (wd hid : Nat) : Bool :=
  match firstWindow s.st hid wd with
  | some w => decide (s.cnt hid < w.maxCleanings.getD 0)
  | none => false

/-- One assignment: assignHousekeeperToBooking on the store, bump the
running count of the chosen housekeeper, increment assignmentsMade. -/
def assignStep (s : AutoState) (bookingId hid : Nat) : AutoState :=
  { st := (assignHousekeeperToBooking s.st bookingId hid).2
    cnt := bump s.cnt hid
    made := s.made + 1 }

/-- Phase 1 guard: the booking's property exists, carries a truthy
default housekeeper id, that housekeeper is among the available ones,
and has a weekday window with spare capacity. Returns the default
housekeeper's id when all of that holds. -/
def defaultChoice (s : AutoState) (avail : List User) (wd : Nat)
    (b : Booking) : Option Nat :=
  match getProperty s.st b.propertyId with
  | none => none
  | some prop =>
    match prop.defaultHousekeeperId with
    | none => none
    | some d =>
      if d != 0 && (avail.any (fun h => h.id == d)) && underCapacity s wd d then
        some d
      else none

/-- Phase 1 (the default-housekeeper pass): iterate the pending bookings
in store order; assign the property's default housekeeper when
defaultChoice fires, otherwise defer the booking to the returned
remainingBookings list (order preserved). -/
def phase1 (avail : List User) (wd : Nat) :
    List Booking → AutoState → AutoState × List Booking
  | [], s => (s, [])
  | b :: rest, s =>
    match defaultChoice s avail wd b with
    | some d => phase1 avail wd rest (assignStep s b.id d)
    | none =>
      let r := phase1 avail wd rest s
      (r.1, b :: r.2)

/-- Stable insertion of a user into a list sorted by running count. -/
def insertByCnt (c : Nat → Nat) (x : User) : List User → List User
  | [] => [x]
  | y :: ys => if c x.id ≤ c y.id then x :: y :: ys else y :: insertByCnt c x ys

/-- The [...availableHousekeepers].sort((a, b) => aCount - bCount) of
phase 2, modelled as a stable sort by the running count (JS sort is
stable). -/
def sortByCnt (c : Nat → Nat) : List User → List User
  | [] => []
  | x :: xs => insertByCnt c x (sortByCnt c xs)

/-- Phase 2 (the fair-load pass): for each remaining booking re-sort the
available housekeepers by running count and assign the first one with a
weekday window and spare capacity; if none qualifies the booking is left
untouched. -/
def phase2 (avail : List User) (wd : Nat) :
    List Booking → AutoState → AutoState
  | [], s => s
  | b :: rest, s =>
    match (sortByCnt s.cnt avail).find? (fun h => underCapacity s wd h.id) with
    | some h => phase2 avail wd rest (assignStep s b.id h.id)
    | none => phase2 avail wd rest s

/-- The ids of the available housekeepers (the key set of the
assignedCounts map). -/
def availIdsOf (avail : List User) : List Nat := avail.map (fun u => u.id)

/-- The pendingBookings local of autoAssignHousekeepers: the day's
checkout bookings that are still pending. -/
def pendingFor (st : MemStorage) (date : Nat) : List Booking :=
  (getBookingsByCheckoutDate st (startOfDay date) (endOfDay date)).filter
    (fun b => b.cleaningStatus == "pending")

/-- The assignedBookings local of autoAssignHousekeepers: the day's
checkout bookings already assigned or completed. -/
def assignedFor (st : MemStorage) (date : Nat) : List Booking :=
  (getBookingsByCheckoutDate st (startOfDay date) (endOfDay date)).filter
    (fun b => b.cleaningStatus == "assigned" || b.cleaningStatus == "completed")

/-- The state entering phase 1: the store, the seeded assignedCounts
map, and a zero assignmentsMade counter. -/
def initAuto (st : MemStorage) (date : Nat) : AutoState :=
  { st := st
    cnt := seedCounts (availIdsOf (getAvailableHousekeepersForDate st date))
      (assignedFor st date)
    made := 0 }

/-- Phase 1 followed by phase 2 on its remaining bookings. -/
def autoRun (st : MemStorage) (date : Nat) : AutoState :=
  phase2 (getAvailableHousekeepersForDate st date) (getDay date)
    (phase1 (getAvailableHousekeepersForDate st date) (getDay date)
      (pendingFor st date) (initAuto st date)).2
    (phase1 (getAvailableHousekeepersForDate st date) (getDay date)
      (pendingFor st date) (initAuto st date)).1

/-- MemStorage.autoAssignHousekeepers: returns the assignmentsMade count
and the final store; early 0 returns when there is nothing pending or
nobody available. -/
def autoAssignHousekeepers (st : MemStorage) (date : Nat) :
    Nat × MemStorage :=
  if (pendingFor st date).isEmpty then (0, st)
  else if (getAvailableHousekeepersForDate st date).isEmpty then (0, st)
  else ((autoRun st date).made, (autoRun st date).st)

/-- The booking-creation call of syncPropertyCalendar (src/server/routes.ts):
a new booking for an unseen iCal event is created pending with the
property's default housekeeper (JS x || null collapses 0 to null). -/
def syncCreateBooking (st : MemStorage) (prop : Property)
    (checkIn checkOut : Nat) : Booking × MemStorage :=
  createBooking st
    { propertyId := prop.id
      checkIn := checkIn
      checkOut := checkOut
      cleaningStatus := "pending"
      housekeeperId := if truthyOpt prop.defaultHousekeeperId then
          prop.defaultHousekeeperId
        else none }

/-- Insert shape of an availability window. -/
structure InsertWindow where
  housekeeperId : Nat
  dayOfWeek : Nat
  maxCleanings : Option Nat

/-- MemStorage.createAvailability. -/
def createAvailability (st : MemStorage) (d : InsertWindow) :
    Window × MemStorage :=
  let a : Window :=
    { id := st.nextAvailabilityId
      housekeeperId := d.housekeeperId
      dayOfWeek := d.dayOfWeek
      maxCleanings := d.maxCleanings }
  (a, { st with availability := st.availability ++ [a],
                nextAvailabilityId := st.nextAvailabilityId + 1 })

/-- Partial of the availability insert shape. -/
structure WindowPatch where
  housekeeperId : Option Nat := none
  dayOfWeek : Option Nat := none
  maxCleanings : Option (Option Nat) := none

/-- Object spread of a window with a patch. -/
def applyWindowPatch (a : Window) (p : WindowPatch) : Window :=
  { a with
    housekeeperId := p.housekeeperId.getD a.housekeeperId
    dayOfWeek := p.dayOfWeek.getD a.dayOfWeek
    maxCleanings := p.maxCleanings.getD a.maxCleanings }

/-- findIndex on windows followed by a write at that index. -/
def updateFirstWindow (l : List Window) (id : Nat) (p : WindowPatch) :
    Option Window × List Window :=
  match l with
  | [] => (none, [])
  | a :: rest =>
    if a.id == id then
      (some (applyWindowPatch a p), applyWindowPatch a p :: rest)
    else
      let r := updateFirstWindow rest id p
      (r.1, a :: r.2)

/-- MemStorage.updateAvailability. -/
def updateAvailability (st : MemStorage) (id : Nat) (p : WindowPatch) :
    Option Window × MemStorage :=
  let r := updateFirstWindow st.availability id p
  (r.1, { st with availability := r.2 })

/-- MemStorage.deleteAvailability. -/
def deleteAvailability (st : MemStorage) (id : Nat) : Bool × MemStorage :=
  let remaining := st.availability.filter (fun a => a.id != id)
  (decide (st.availability.length ≠ remaining.length),
   { st with availability := remaining })

/-- Insert shape of a time-off request. -/
structure InsertTimeOff where
  housekeeperId : Nat
  startDate : Nat
  endDate : Nat
  approved : Bool

/-- MemStorage.createTimeOff. -/
def createTimeOff (st : MemStorage) (d : InsertTimeOff) :
    TimeOff × MemStorage :=
  let t : TimeOff :=
    { id := st.nextTimeOffId
      housekeeperId := d.housekeeperId
      startDate := d.startDate
      endDate := d.endDate
      approved := d.approved }
  (t, { st with timeOff := st.timeOff ++ [t],
                nextTimeOffId := st.nextTimeOffId + 1 })

/-- Partial of the time-off insert shape. -/
structure TimeOffPatch where
  housekeeperId : Option Nat := none
  startDate : Option Nat := none
  endDate : Option Nat := none
  approved : Option Bool := none

/-- Object spread of a time-off request with a patch. -/
def applyTimeOffPatch (t : TimeOff) (p : TimeOffPatch) : TimeOff :=
  { t with
    housekeeperId := p.housekeeperId.getD t.housekeeperId
    startDate := p.startDate.getD t.startDate
    endDate := p.endDate.getD t.endDate
    approved := p.approved.getD t.approved }

/-- findIndex on time-off rows followed by a write at that index. -/
def updateFirstTimeOff (l : List TimeOff) (id : Nat) (p : TimeOffPatch) :
    Option TimeOff × List TimeOff :=
  match l with
  | [] => (none, [])
  | t :: rest =>
    if t.id == id then
      (some (applyTimeOffPatch t p), applyTimeOffPatch t p :: rest)
    else
      let r := updateFirstTimeOff rest id p
      (r.1, t :: r.2)

/-- MemStorage.updateTimeOff. -/
def updateTimeOff (st : MemStorage) (id : Nat) (p : TimeOffPatch) :
    Option TimeOff × MemStorage :=
  let r := updateFirstTimeOff st.timeOff id p
  (r.1, { st with timeOff := r.2 })

/-- MemStorage.deleteTimeOff. -/
def deleteTimeOff (st : MemStorage) (id : Nat) : Bool × MemStorage :=
  let remaining := st.timeOff.filter (fun t => t.id != id)
  (decide (st.timeOff.length ≠ remaining.length),
   { st with timeOff := remaining })

/-- The booking record pushed by createBooking. -/
def newBookingOf (st : MemStorage) (d : InsertBooking) : Booking :=
  { id := st.nextBookingId
    propertyId := d.propertyId
    checkIn := d.checkIn
    checkOut := d.checkOut
    cleaningStatus := d.cleaningStatus
    housekeeperId := d.housekeeperId }

/-- The first half of createBooking: push the record and advance the
counter. -/
def pushBooking (st : MemStorage) (b : Booking) : MemStorage :=
  { st with bookings := st.bookings ++ [b],
            nextBookingId := st.nextBookingId + 1 }

/-- Every user's cleaningCount is nonnegative. -/
def Nonneg (st : MemStorage) : Prop :=
  ∀ u ∈ st.users, 0 ≤ u.cleaningCount

/-- One mutating operation of the system: the storage mutators plus the
booking creation performed by calendar sync. The user-update step
carries no cleaningCount field, matching the validated external patch
shape (insertUserSchema omits cleaningCount and zod strips unknown
keys); the internal count writes happen inside the booking mutators. -/
inductive Step : MemStorage → MemStorage → Prop where
  | ofCreateUser (st : MemStorage) (d : InsertUser) :
      Step st (createUser st d).2
  | ofUpdateUser (st : MemStorage) (i : Nat) (p : UserPatch)
      (hp : p.cleaningCount = none) : Step st (updateUser st i p).2
  | ofDeleteUser (st : MemStorage) (i : Nat) : Step st (deleteUser st i).2
  | ofCreateProperty (st : MemStorage) (d : InsertProperty) :
      Step st (createProperty st d).2
  | ofUpdateProperty (st : MemStorage) (i : Nat) (q : PropertyPatch) :
      Step st (updateProperty st i q).2
  | ofDeleteProperty (st : MemStorage) (i : Nat) :
      Step st (deleteProperty st i).2
  | ofCreateBooking (st : MemStorage) (d : InsertBooking) :
      Step st (createBooking st d).2
  | ofUpdateBooking (st : MemStorage) (i : Nat) (p : BookingPatch) :
      Step st (updateBooking st i p).2
  | ofDeleteBooking (st : MemStorage) (i : Nat) :
      Step st (deleteBooking st i).2
  | ofAssign (st : MemStorage) (bid hid : Nat) :
      Step st (assignHousekeeperToBooking st bid hid).2
  | ofAutoAssign (st : MemStorage) (date : Nat) :
      Step st (autoAssignHousekeepers st date).2
  | ofSyncCreate (st : MemStorage) (prop : Property) (ci co : Nat) :
      Step st (syncCreateBooking st prop ci co).2
  | ofCreateAvailability (st : MemStorage) (d : InsertWindow) :
      Step st (createAvailability st d).2
  | ofUpdateAvailability (st : MemStorage) (i : Nat) (p : WindowPatch) :
      Step st (updateAvailability st i p).2
  | ofDeleteAvailability (st : MemStorage) (i : Nat) :
      Step st (deleteAvailability st i).2
  | ofCreateTimeOff (st : MemStorage) (d : InsertTimeOff) :
      Step st (createTimeOff st d).2
  | ofUpdateTimeOff (st : MemStorage) (i : Nat) (p : TimeOffPatch) :
      Step st (updateTimeOff st i p).2
  | ofDeleteTimeOff (st : MemStorage) (i : Nat) :
      Step st (deleteTimeOff st i).2

/-- Reflexive-transitive closure of Step from a given starting store. -/
inductive ReachableFrom (st0 : MemStorage) : MemStorage → Prop where
  | refl : ReachableFrom st0 st0
  | step (st1 st2 : MemStorage) : ReachableFrom st0 st1 → Step st1 st2 →
      ReachableFrom st0 st2

/-- Bookings counted by the capacity claim: carried by the given
housekeeper, checking out within the day, and assigned or completed. -/
def dayPred (lo hi uid : Nat) (b : Booking) : Bool :=
  b.housekeeperId == some uid &&
    decide (lo ≤ b.checkOut) && decide (b.checkOut ≤ hi) &&
    (b.cleaningStatus == "assigned" || b.cleaningStatus == "completed")

/-- Number of same-day assigned-or-completed bookings carried by a
housekeeper id. -/
def dayCount (st : MemStorage) (lo hi uid : Nat) : Nat :=
  st.bookings.countP (dayPred lo hi uid)

/-- The cleaningStatus of the stored booking with a given id. -/
def statusAt (st : MemStorage) (i : Nat) : Option String :=
  (getBooking st i).map (fun b => b.cleaningStatus)

/-- Invariant carried by both phases of autoAssignHousekeepers:
availability, properties and the booking-id sequence never change, the
running count of every available housekeeper equals their day-count in
the current store, and day-counts of everyone else never move. -/
structure Inv (st0 : MemStorage) (avail : List User) (lo hi : Nat)
    (s : AutoState) : Prop where
  availEq : s.st.availability = st0.availability
  propsEq : s.st.properties = st0.properties
  idsEq : s.st.bookings.map (fun b => b.id) = st0.bookings.map (fun b => b.id)
  cntEq : ∀ uid, uid ∈ availIdsOf avail → s.cnt uid = dayCount s.st lo hi uid
  outEq : ∀ uid, uid ∉ availIdsOf avail →
    dayCount s.st lo hi uid = dayCount st0 lo hi uid

/-- The bookings still to process are stored unchanged, pending, and
check out within the day. -/
def TodoOk (lo hi : Nat) (s : AutoState) (todo : List Booking) : Prop :=
  ∀ b ∈ todo, getBooking s.st b.id = some b ∧ b.cleaningStatus = "pending" ∧
    lo ≤ b.checkOut ∧ b.checkOut ≤ hi

/-- Every available housekeeper with a weekday window stays within that
window's capacity. -/
def CntBound (st0 : MemStorage) (avail : List User) (wd : Nat)
    (s : AutoState) : Prop :=
  ∀ uid w, uid ∈ availIdsOf avail → firstWindow st0 uid wd = some w →
    s.cnt uid ≤ w.maxCleanings.getD 0

/-- Two stores agree on every data table consulted or written by the
scheduler; only the id counters may differ. -/
def coreEq (st st' : MemStorage) : Prop :=
  st.users = st'.users ∧ st.properties = st'.properties ∧
  st.bookings = st'.bookings ∧ st.availability = st'.availability ∧
  st.timeOff = st'.timeOff

/-- Two running states agree on the store tables, the counts map and the
assignmentsMade counter. -/
def autoEq (s s' : AutoState) : Prop :=
  coreEq s.st s'.st ∧ s.cnt = s'.cnt ∧ s.made = s'.made

/-- Every stored booking with a non-null assignee is not pending. -/
def ValidAssign (st : MemStorage) : Prop :=
  ∀ b ∈ st.bookings, b.housekeeperId ≠ none → b.cleaningStatus ≠ "pending"

/-- Number of stored bookings carrying a given housekeeper id. -/
def countAssignedTo (st : MemStorage) (uid : Nat) : Nat :=
  st.bookings.countP (fun b => b.housekeeperId == some uid)

/-- Every user's cleaningCount equals the number of bookings currently
assigned to them. -/
def countsConsistent (st : MemStorage) : Prop :=
  ∀ u ∈ st.users, u.cleaningCount = (countAssignedTo st u.id : Int)

/-- Lookup-based phrasing of consistency. -/
def ConsAt (st : MemStorage) : Prop :=
  ∀ uid u, getUser st uid = some u →
    u.cleaningCount = (countAssignedTo st uid : Int)

/-- The consistency state preserved by the booking mutators: nonzero
distinct user ids together with the lookup form of count consistency. -/
def CCInv (st : MemStorage) : Prop :=
  (∀ u ∈ st.users, u.id ≠ 0) ∧
  (st.users.map (fun u => u.id)).Nodup ∧
  ConsAt st

/-- The store of the count-consistency counterexamples: one housekeeper
with cleaningCount 1 and one assigned booking carrying them. -/
def stC3ex : MemStorage :=
  { users := [{ id := 1, role := "housekeeper", cleaningCount := 1 }]
    properties := [{ id := 1, defaultHousekeeperId := none }]
    bookings := [{ id := 1, propertyId := 1, checkIn := 0, checkOut := 5,
                   cleaningStatus := "assigned", housekeeperId := some 1 }]
    availability := []
    timeOff := [] }

/-- Two housekeepers, one property with a default housekeeper and one
without, two pending checkouts on day weekday 2, windows with capacity
2 and 1. -/
def stW : MemStorage :=
  { users := [{ id := 1, role := "housekeeper", cleaningCount := 0 },
              { id := 2, role := "housekeeper", cleaningCount := 0 }]
    properties := [{ id := 1, defaultHousekeeperId := some 1 },
                   { id := 2, defaultHousekeeperId := none }]
    bookings := [{ id := 1, propertyId := 1, checkIn := 0,
                   checkOut := 432000000, cleaningStatus := "pending",
                   housekeeperId := none },
                 { id := 2, propertyId := 2, checkIn := 0,
                   checkOut := 432010000, cleaningStatus := "pending",
                   housekeeperId := none }]
    availability := [{ id := 1, housekeeperId := 1, dayOfWeek := 2,
                       maxCleanings := some 2 },
                     { id := 2, housekeeperId := 2, dayOfWeek := 2,
                       maxCleanings := some 1 }]
    timeOff := [] }

/-- stW with a different id counter: same data tables, so core-equal. -/
def stW8 : MemStorage := { stW with nextUserId := 7 }

/-- A store holding one pending unassigned booking and no users. -/
def stDex : MemStorage :=
  { users := []
    properties := []
    bookings := [{ id := 1, propertyId := 1, checkIn := 0, checkOut := 5,
                   cleaningStatus := "pending", housekeeperId := none }]
    availability := []
    timeOff := [] }

/-- A store whose single property carries a default housekeeper. -/
def stC4ex : MemStorage :=
  { users := [{ id := 1, role := "housekeeper", cleaningCount := 0 }]
    properties := [{ id := 1, defaultHousekeeperId := some 1 }]
    bookings := []
    availability := []
    timeOff := [] }

/-- The phase-1 result of the stW scenario. -/
def p1W : AutoState × List Booking :=
  phase1 (getAvailableHousekeepersForDate stW 432000000) (getDay 432000000)
    (pendingFor stW 432000000) (initAuto stW 432000000)

/-- The phase-2 state of the stW scenario just before its only
remaining booking is placed. -/
def p2preW : AutoState :=
  phase2 (getAvailableHousekeepersForDate stW 432000000) (getDay 432000000)
    [] p1W.1

/-! ### Basic lemmas about the list-update primitives -/

theorem applyBookingPatch_id (b : Booking) (p : BookingPatch) :
    (applyBookingPatch b p).id = b.id := rfl

theorem applyUserPatch_id (u : User) (p : UserPatch) :
    (applyUserPatch u p).id = u.id := rfl

theorem updateFirstBooking_map_id (l : List Booking) (id : Nat) (p : BookingPatch) :
    (updateFirstBooking l id p).2.map (fun b => b.id) = l.map (fun b => b.id) := by
  induction l with
  | nil => rfl
  | cons b rest ih =>
    by_cases h : b.id == id <;> simp [updateFirstBooking, h, applyBookingPatch_id, ih]

theorem updateFirstBooking_of_none (l : List Booking) (id : Nat) (p : BookingPatch)
    (h : l.find? (fun b => b.id == id) = none) :
    (updateFirstBooking l id p).2 = l := by
  induction l with
  | nil => rfl
  | cons b rest ih =>
    rw [List.find?_cons] at h
    cases hb : b.id == id with
    | true => rw [hb] at h; simp at h
    | false =>
      rw [hb] at h
      simp [updateFirstBooking, hb, ih h]

theorem updateFirstBooking_find?_other (l : List Booking) (id j : Nat)
    (p : BookingPatch) (hj : j ≠ id) :
    (updateFirstBooking l id p).2.find? (fun b => b.id == j) =
      l.find? (fun b => b.id == j) := by
  induction l with
  | nil => rfl
  | cons b rest ih =>
    cases hb : b.id == id with
    | true =>
      have hbid : b.id = id := by simpa using hb
      have h1 : ((applyBookingPatch b p).id == j) = false := by
        rw [applyBookingPatch_id, hbid]
        simpa using fun h => hj h.symm
      have h2 : (b.id == j) = false := by
        rw [hbid]; simpa using fun h => hj h.symm
      simp [updateFirstBooking, hb, List.find?_cons, h1, h2]
    | false =>
      cases hbj : b.id == j with
      | true => simp [updateFirstBooking, hb, List.find?_cons, hbj]
      | false => simp [updateFirstBooking, hb, List.find?_cons, hbj, ih]

theorem updateFirstBooking_find?_self (l : List Booking) (id : Nat)
    (p : BookingPatch) (b : Booking)
    (h : l.find? (fun x => x.id == id) = some b) :
    (updateFirstBooking l id p).2.find? (fun x => x.id == id) =
      some (applyBookingPatch b p) := by
  induction l with
  | nil => simp at h
  | cons x rest ih =>
    rw [List.find?_cons] at h
    cases hx : x.id == id with
    | true =>
      rw [hx] at h
      cases h
      have h1 : ((applyBookingPatch b p).id == id) = true := by
        rw [applyBookingPatch_id]; exact hx
      simp [updateFirstBooking, hx, List.find?_cons, h1]
    | false =>
      rw [hx] at h
      simp [updateFirstBooking, hx, List.find?_cons, ih h]

theorem updateFirstBooking_countP (l : List Booking) (id : Nat)
    (p : BookingPatch) (b : Booking) (q : Booking → Bool)
    (h : l.find? (fun x => x.id == id) = some b) :
    (updateFirstBooking l id p).2.countP q + (if q b then 1 else 0) =
      l.countP q + (if q (applyBookingPatch b p) then 1 else 0) := by
  induction l with
  | nil => simp at h
  | cons x rest ih =>
    rw [List.find?_cons] at h
    cases hx : x.id == id with
    | true =>
      rw [hx] at h
      cases h
      simp only [updateFirstBooking, hx, if_pos, List.countP_cons]
      by_cases hqb : q b <;> by_cases hqp : q (applyBookingPatch b p) <;>
        simp [hqb, hqp]
    | false =>
      rw [hx] at h
      have := ih h
      simp only [updateFirstBooking, hx, List.countP_cons, Bool.false_eq_true,
        if_false, cond_false]
      by_cases hqx : q x <;> simp [hqx] <;> omega

theorem updateFirstBooking_mem (l : List Booking) (id : Nat) (p : BookingPatch)
    (x : Booking) (hx : x ∈ (updateFirstBooking l id p).2) :
    x ∈ l ∨ ∃ b ∈ l, x = applyBookingPatch b p := by
  induction l with
  | nil => simp [updateFirstBooking] at hx
  | cons b rest ih =>
    by_cases hb : b.id == id
    · simp only [updateFirstBooking, hb, if_pos] at hx
      rcases List.mem_cons.1 hx with h | h
      · exact Or.inr ⟨b, List.mem_cons_self .., h⟩
      · exact Or.inl (List.mem_cons_of_mem _ h)
    · simp only [updateFirstBooking, hb] at hx
      rcases List.mem_cons.1 hx with h | h
      · exact Or.inl (h ▸ List.mem_cons_self ..)
      · rcases ih h with h | ⟨y, hy, hxy⟩
        · exact Or.inl (List.mem_cons_of_mem _ h)
        · exact Or.inr ⟨y, List.mem_cons_of_mem _ hy, hxy⟩

theorem updateFirstUser_map_id (l : List User) (id : Nat) (p : UserPatch) :
    (updateFirstUser l id p).2.map (fun u => u.id) = l.map (fun u => u.id) := by
  induction l with
  | nil => rfl
  | cons u rest ih =>
    by_cases h : u.id == id <;> simp [updateFirstUser, h, applyUserPatch_id, ih]

theorem updateFirstUser_find?_other (l : List User) (id j : Nat)
    (p : UserPatch) (hj : j ≠ id) :
    (updateFirstUser l id p).2.find? (fun u => u.id == j) =
      l.find? (fun u => u.id == j) := by
  induction l with
  | nil => rfl
  | cons u rest ih =>
    cases hu : u.id == id with
    | true =>
      have huid : u.id = id := by simpa using hu
      have h1 : ((applyUserPatch u p).id == j) = false := by
        rw [applyUserPatch_id, huid]
        simpa using fun h => hj h.symm
      have h2 : (u.id == j) = false := by
        rw [huid]; simpa using fun h => hj h.symm
      simp [updateFirstUser, hu, List.find?_cons, h1, h2]
    | false =>
      cases huj : u.id == j with
      | true => simp [updateFirstUser, hu, List.find?_cons, huj]
      | false => simp [updateFirstUser, hu, List.find?_cons, huj, ih]

theorem updateFirstUser_find?_self (l : List User) (id : Nat)
    (p : UserPatch) (u : User)
    (h : l.find? (fun x => x.id == id) = some u) :
    (updateFirstUser l id p).2.find? (fun x => x.id == id) =
      some (applyUserPatch u p) := by
  induction l with
  | nil => simp at h
  | cons x rest ih =>
    rw [List.find?_cons] at h
    cases hx : x.id == id with
    | true =>
      rw [hx] at h
      cases h
      have h1 : ((applyUserPatch u p).id == id) = true := by
        rw [applyUserPatch_id]; exact hx
      simp [updateFirstUser, hx, List.find?_cons, h1]
    | false =>
      rw [hx] at h
      simp [updateFirstUser, hx, List.find?_cons, ih h]

theorem updateFirstUser_mem (l : List User) (id : Nat) (p : UserPatch)
    (x : User) (hx : x ∈ (updateFirstUser l id p).2) :
    x ∈ l ∨ ∃ u ∈ l, x = applyUserPatch u p := by
  induction l with
  | nil => simp [updateFirstUser] at hx
  | cons u rest ih =>
    by_cases hu : u.id == id
    · simp only [updateFirstUser, hu, if_pos] at hx
      rcases List.mem_cons.1 hx with h | h
      · exact Or.inr ⟨u, List.mem_cons_self .., h⟩
      · exact Or.inl (List.mem_cons_of_mem _ h)
    · simp only [updateFirstUser, hu] at hx
      rcases List.mem_cons.1 hx with h | h
      · exact Or.inl (h ▸ List.mem_cons_self ..)
      · rcases ih h with h | ⟨y, hy, hxy⟩
        · exact Or.inl (List.mem_cons_of_mem _ h)
        · exact Or.inr ⟨y, List.mem_cons_of_mem _ hy, hxy⟩

/-- In a list of bookings with pairwise-distinct ids, every member is the
first (hence the found) booking with its id. -/
theorem find?_of_mem_nodup_booking (l : List Booking) (b : Booking)
    (hb : b ∈ l) (hnd : (l.map (fun x => x.id)).Nodup) :
    l.find? (fun x => x.id == b.id) = some b := by
  induction l with
  | nil => simp at hb
  | cons x rest ih =>
    rcases List.mem_cons.1 hb with h | h
    · subst h
      simp [List.find?_cons_of_pos]
    · have hx : ¬ (x.id = b.id) := by
        intro hEq
        have : b.id ∈ rest.map (fun y => y.id) := List.mem_map_of_mem _ h
        rw [List.map_cons, List.nodup_cons] at hnd
        exact hnd.1 (hEq ▸ this)
      rw [List.find?_cons_of_neg _ (by simpa using hx)]
      exact ih h (by rw [List.map_cons, List.nodup_cons] at hnd; exact hnd.2)

theorem find?_of_mem_nodup_user (l : List User) (u : User)
    (hu : u ∈ l) (hnd : (l.map (fun x => x.id)).Nodup) :
    l.find? (fun x => x.id == u.id) = some u := by
  induction l with
  | nil => simp at hu
  | cons x rest ih =>
    rcases List.mem_cons.1 hu with h | h
    · subst h
      simp [List.find?_cons_of_pos]
    · have hx : ¬ (x.id = u.id) := by
        intro hEq
        have : u.id ∈ rest.map (fun y => y.id) := List.mem_map_of_mem _ h
        rw [List.map_cons, List.nodup_cons] at hnd
        exact hnd.1 (hEq ▸ this)
      rw [List.find?_cons_of_neg _ (by simpa using hx)]
      exact ih h (by rw [List.map_cons, List.nodup_cons] at hnd; exact hnd.2)

/-! ### Stability of the store components under the mutators -/

theorem updateUser_bookings (st : MemStorage) (id : Nat) (p : UserPatch) :
    (updateUser st id p).2.bookings = st.bookings := rfl

theorem updateUser_availability (st : MemStorage) (id : Nat) (p : UserPatch) :
    (updateUser st id p).2.availability = st.availability := rfl

theorem updateUser_properties (st : MemStorage) (id : Nat) (p : UserPatch) :
    (updateUser st id p).2.properties = st.properties := rfl

theorem updateUser_timeOff (st : MemStorage) (id : Nat) (p : UserPatch) :
    (updateUser st id p).2.timeOff = st.timeOff := rfl

theorem updateUser_users_map_id (st : MemStorage) (id : Nat) (p : UserPatch) :
    (updateUser st id p).2.users.map (fun u => u.id) =
      st.users.map (fun u => u.id) :=
  updateFirstUser_map_id st.users id p

theorem incNewCount_bookings (st : MemStorage) (i : Nat) :
    (incNewCount st i).bookings = st.bookings := by
  unfold incNewCount
  split <;> rfl

theorem incNewCount_availability (st : MemStorage) (i : Nat) :
    (incNewCount st i).availability = st.availability := by
  unfold incNewCount
  split <;> rfl

theorem incNewCount_properties (st : MemStorage) (i : Nat) :
    (incNewCount st i).properties = st.properties := by
  unfold incNewCount
  split <;> rfl

theorem incNewCount_timeOff (st : MemStorage) (i : Nat) :
    (incNewCount st i).timeOff = st.timeOff := by
  unfold incNewCount
  split <;> rfl

theorem incNewCount_users_map_id (st : MemStorage) (i : Nat) :
    (incNewCount st i).users.map (fun u => u.id) =
      st.users.map (fun u => u.id) := by
  unfold incNewCount
  split <;> simp [updateUser_users_map_id]

theorem decPrevCount_bookings (st : MemStorage) (i : Nat) :
    (decPrevCount st i).bookings = st.bookings := by
  unfold decPrevCount
  repeat' split
  all_goals rfl

theorem decPrevCount_availability (st : MemStorage) (i : Nat) :
    (decPrevCount st i).availability = st.availability := by
  unfold decPrevCount
  repeat' split
  all_goals rfl

theorem decPrevCount_properties (st : MemStorage) (i : Nat) :
    (decPrevCount st i).properties = st.properties := by
  unfold decPrevCount
  repeat' split
  all_goals rfl

theorem decPrevCount_timeOff (st : MemStorage) (i : Nat) :
    (decPrevCount st i).timeOff = st.timeOff := by
  unfold decPrevCount
  repeat' split
  all_goals rfl

theorem decPrevCount_users_map_id (st : MemStorage) (i : Nat) :
    (decPrevCount st i).users.map (fun u => u.id) =
      st.users.map (fun u => u.id) := by
  unfold decPrevCount
  repeat' split
  all_goals simp [updateUser_users_map_id]

theorem updateBookingCounts_bookings (st : MemStorage) (e : Booking)
    (p : BookingPatch) :
    (updateBookingCounts st e p).bookings = st.bookings := by
  unfold updateBookingCounts
  repeat' split
  all_goals simp [decPrevCount_bookings, incNewCount_bookings]

theorem updateBookingCounts_availability (st : MemStorage) (e : Booking)
    (p : BookingPatch) :
    (updateBookingCounts st e p).availability = st.availability := by
  unfold updateBookingCounts
  repeat' split
  all_goals simp [decPrevCount_availability, incNewCount_availability]

theorem updateBookingCounts_properties (st : MemStorage) (e : Booking)
    (p : BookingPatch) :
    (updateBookingCounts st e p).properties = st.properties := by
  unfold updateBookingCounts
  repeat' split
  all_goals simp [decPrevCount_properties, incNewCount_properties]

theorem updateBookingCounts_timeOff (st : MemStorage) (e : Booking)
    (p : BookingPatch) :
    (updateBookingCounts st e p).timeOff = st.timeOff := by
  unfold updateBookingCounts
  repeat' split
  all_goals simp [decPrevCount_timeOff, incNewCount_timeOff]

theorem updateBookingCounts_users_map_id (st : MemStorage) (e : Booking)
    (p : BookingPatch) :
    (updateBookingCounts st e p).users.map (fun u => u.id) =
      st.users.map (fun u => u.id) := by
  unfold updateBookingCounts
  repeat' split
  all_goals simp [decPrevCount_users_map_id, incNewCount_users_map_id]

theorem updateBooking_bookings (st : MemStorage) (id : Nat) (p : BookingPatch) :
    (updateBooking st id p).2.bookings = (updateFirstBooking st.bookings id p).2 := by
  unfold updateBooking
  cases h : getBooking st id with
  | none => simpa using (updateFirstBooking_of_none st.bookings id p h).symm
  | some e => simp [updateBookingCounts_bookings]

theorem updateBooking_availability (st : MemStorage) (id : Nat) (p : BookingPatch) :
    (updateBooking st id p).2.availability = st.availability := by
  unfold updateBooking
  cases h : getBooking st id with
  | none => rfl
  | some e => simpa using updateBookingCounts_availability st e p

theorem updateBooking_properties (st : MemStorage) (id : Nat) (p : BookingPatch) :
    (updateBooking st id p).2.properties = st.properties := by
  unfold updateBooking
  cases h : getBooking st id with
  | none => rfl
  | some e => simpa using updateBookingCounts_properties st e p

theorem updateBooking_timeOff (st : MemStorage) (id : Nat) (p : BookingPatch) :
    (updateBooking st id p).2.timeOff = st.timeOff := by
  unfold updateBooking
  cases h : getBooking st id with
  | none => rfl
  | some e => simpa using updateBookingCounts_timeOff st e p

theorem updateBooking_users_map_id (st : MemStorage) (id : Nat) (p : BookingPatch) :
    (updateBooking st id p).2.users.map (fun u => u.id) =
      st.users.map (fun u => u.id) := by
  unfold updateBooking
  cases h : getBooking st id with
  | none => rfl
  | some e => simpa using updateBookingCounts_users_map_id st e p

theorem updateBooking_bookings_map_id (st : MemStorage) (id : Nat)
    (p : BookingPatch) :
    (updateBooking st id p).2.bookings.map (fun b => b.id) =
      st.bookings.map (fun b => b.id) := by
  rw [updateBooking_bookings]
  exact updateFirstBooking_map_id st.bookings id p

/-- Reads that only depend on the availability component. -/
theorem firstWindow_congr (st st' : MemStorage) (hid wd : Nat)
    (h : st'.availability = st.availability) :
    firstWindow st' hid wd = firstWindow st hid wd := by
  unfold firstWindow getAvailabilitiesByHousekeeper
  rw [h]

/-- Reads that only depend on the properties component. -/
theorem getProperty_congr (st st' : MemStorage) (id : Nat)
    (h : st'.properties = st.properties) :
    getProperty st' id = getProperty st id := by
  unfold getProperty
  rw [h]

theorem getBooking_updateBooking_other (st : MemStorage) (id j : Nat)
    (p : BookingPatch) (hj : j ≠ id) :
    getBooking (updateBooking st id p).2 j = getBooking st j := by
  unfold getBooking
  rw [updateBooking_bookings]
  exact updateFirstBooking_find?_other st.bookings id j p hj

theorem getBooking_updateBooking_self (st : MemStorage) (id : Nat)
    (p : BookingPatch) (b : Booking) (h : getBooking st id = some b) :
    getBooking (updateBooking st id p).2 id = some (applyBookingPatch b p) := by
  unfold getBooking
  rw [updateBooking_bookings]
  exact updateFirstBooking_find?_self st.bookings id p b h

/-! ### Counting helpers -/

theorem countP_and_split {α : Type} (l : List α) (p q : α → Bool) :
    l.countP p =
      l.countP (fun x => p x && q x) + l.countP (fun x => p x && !q x) := by
  induction l with
  | nil => rfl
  | cons x rest ih =>
    simp only [List.countP_cons, ih]
    by_cases hp : p x <;> by_cases hq : q x <;> simp [hp, hq] <;> omega

theorem countP_sublist_mem {α : Type} [DecidableEq α] (l' l : List α)
    (hs : l'.Sublist l) (hnd : l.Nodup) (p : α → Bool) :
    l.countP (fun x => decide (x ∈ l') && p x) = l'.countP p := by
  induction hs with
  | slnil => rfl
  | cons a hs ih =>
    rename_i m₁ m₂
    rw [List.nodup_cons] at hnd
    have ha : a ∉ m₁ := fun h => hnd.1 (hs.subset h)
    have h0 : (decide (a ∈ m₁) && p a) = false := by simp [ha]
    rw [List.countP_cons, h0]
    simpa using ih hnd.2
  | cons₂ a hs ih =>
    rename_i m₁ m₂
    rw [List.nodup_cons] at hnd
    have hstep : List.countP (fun x => decide (x ∈ a :: m₁) && p x) m₂ =
        List.countP (fun x => decide (x ∈ m₁) && p x) m₂ := by
      apply List.countP_congr
      intro x hx
      have hxa : ¬ (x = a) := fun h => hnd.1 (h ▸ hx)
      simp [List.mem_cons, hxa]
    rw [List.countP_cons, List.countP_cons, hstep, ih hnd.2]
    have h1 : (decide (a ∈ a :: m₁) && p a) = p a := by simp
    rw [h1]

/-! ### The day-count of a staff member -/

/-! ### The stable sort of phase 2 -/

theorem mem_insertByCnt (c : Nat → Nat) (x y : User) (l : List User) :
    y ∈ insertByCnt c x l ↔ y = x ∨ y ∈ l := by
  induction l with
  | nil => simp [insertByCnt]
  | cons z rest ih =>
    by_cases h : c x.id ≤ c z.id
    · simp [insertByCnt, h]
    · simp [insertByCnt, h, ih]
      tauto

theorem mem_sortByCnt (c : Nat → Nat) (y : User) (l : List User) :
    y ∈ sortByCnt c l ↔ y ∈ l := by
  induction l with
  | nil => simp [sortByCnt]
  | cons x rest ih =>
    simp [sortByCnt, mem_insertByCnt, ih]

theorem sorted_insertByCnt (c : Nat → Nat) (x : User) (l : List User)
    (h : l.Pairwise (fun a b => c a.id ≤ c b.id)) :
    (insertByCnt c x l).Pairwise (fun a b => c a.id ≤ c b.id) := by
  induction l with
  | nil => simp [insertByCnt]
  | cons z rest ih =>
    rw [List.pairwise_cons] at h
    by_cases hle : c x.id ≤ c z.id
    · rw [insertByCnt]
      simp only [hle, if_true]
      rw [List.pairwise_cons]
      constructor
      · intro y hy
        rcases List.mem_cons.1 hy with h1 | h1
        · exact h1 ▸ hle
        · exact le_trans hle (h.1 y h1)
      · rw [List.pairwise_cons]
        exact h
    · rw [insertByCnt]
      simp only [hle, if_false]
      rw [List.pairwise_cons]
      constructor
      · intro y hy
        rcases (mem_insertByCnt c x y rest).1 hy with h1 | h1
        · exact h1 ▸ le_of_not_le hle
        · exact h.1 y h1
      · exact ih h.2

theorem sorted_sortByCnt (c : Nat → Nat) (l : List User) :
    (sortByCnt c l).Pairwise (fun a b => c a.id ≤ c b.id) := by
  induction l with
  | nil => simp [sortByCnt]
  | cons x rest ih => exact sorted_insertByCnt c x _ ih

/-- A successful find? splits the list at the first satisfying element. -/
theorem find?_split {α : Type} (l : List α) (p : α → Bool) (h : α)
    (hf : l.find? p = some h) :
    ∃ l1 l2, l = l1 ++ h :: l2 ∧ (∀ x ∈ l1, p x = false) ∧ p h = true := by
  induction l with
  | nil => simp at hf
  | cons x rest ih =>
    rw [List.find?_cons] at hf
    cases hx : p x with
    | true =>
      rw [hx] at hf
      cases hf
      exact ⟨[], rest, rfl, by simp, hx⟩
    | false =>
      rw [hx] at hf
      rcases ih hf with ⟨l1, l2, hsplit, hall, hp⟩
      exact ⟨x :: l1, l2, by rw [hsplit]; rfl,
        fun y hy => by
          rcases List.mem_cons.1 hy with h1 | h1
          · exact h1 ▸ hx
          · exact hall y h1, hp⟩

/-- The staff member chosen by the phase-2 find? on the sorted list has
a running count less than or equal to that of every satisfying staff
member. -/
theorem find?_sorted_min (c : Nat → Nat) (avail : List User)
    (p : User → Bool) (h : User)
    (hf : (sortByCnt c avail).find? p = some h) :
    ∀ u ∈ avail, p u = true → c h.id ≤ c u.id := by
  intro u hu hp
  rcases find?_split _ p h hf with ⟨l1, l2, hsplit, hall, hph⟩
  have hmem : u ∈ sortByCnt c avail := (mem_sortByCnt c u avail).2 hu
  rw [hsplit] at hmem
  have hsorted := sorted_sortByCnt c avail
  rw [hsplit] at hsorted
  rcases List.mem_append.1 hmem with h1 | h1
  · rw [hall u h1] at hp
    cases hp
  · rcases List.mem_cons.1 h1 with h2 | h2
    · exact h2 ▸ le_refl _
    · rcases List.pairwise_append.1 hsorted with ⟨_, hc, hrel⟩
      rw [List.pairwise_cons] at hc
      exact hc.1 u h2

/-! ### The seeded counts agree with the day-counts -/

theorem seedStep_apply (availIds : List Nat) (c : Nat → Nat) (b : Booking)
    (uid : Nat) (hmem : uid ∈ availIds) (h0 : uid ≠ 0) :
    seedStep availIds c b uid =
      c uid + (if b.housekeeperId == some uid then 1 else 0) := by
  unfold seedStep
  cases hb : b.housekeeperId with
  | none => simp
  | some k =>
    show (if (k != 0 && availIds.contains k) = true then bump c k else c) uid =
      c uid + (if ((some k : Option Nat) == some uid) = true then 1 else 0)
    by_cases hk : (k != 0 && availIds.contains k) = true
    · rw [if_pos hk]
      by_cases hku : k = uid
      · subst hku
        simp [bump]
      · have h1 : bump c k uid = c uid := by simp [bump, Ne.symm hku]
        have h2 : ((some k : Option Nat) == some uid) = false := by simp [hku]
        rw [h1, h2]
        simp
    · rw [if_neg hk]
      have hku : k ≠ uid := by
        intro h
        subst h
        simp [h0, hmem] at hk
      have h2 : ((some k : Option Nat) == some uid) = false := by simp [hku]
      rw [h2]
      simp

theorem seedFold_spec (availIds : List Nat) (l : List Booking)
    (c : Nat → Nat) (uid : Nat) (hmem : uid ∈ availIds) (h0 : uid ≠ 0) :
    (l.foldl (seedStep availIds) c) uid
      = c uid + l.countP (fun b => b.housekeeperId == some uid) := by
  induction l generalizing c with
  | nil => simp
  | cons b rest ih =>
    rw [List.foldl_cons, List.countP_cons, ih (seedStep availIds c b),
      seedStep_apply availIds c b uid hmem h0]
    omega

theorem seedCounts_spec (availIds : List Nat) (l : List Booking) (uid : Nat)
    (hmem : uid ∈ availIds) (h0 : uid ≠ 0) :
    seedCounts availIds l uid =
      l.countP (fun b => b.housekeeperId == some uid) := by
  unfold seedCounts
  rw [seedFold_spec availIds l _ uid hmem h0]
  exact Nat.zero_add _

/-! ### The invariants carried through the two assignment phases -/

theorem applyBookingPatch_assign (b : Booking) (hid : Nat) :
    applyBookingPatch b (assignPatch hid) =
      { b with cleaningStatus := "assigned", housekeeperId := some hid } := rfl

/-- Effect of one assignment on a day-count: the chosen housekeeper's
day-count grows by one, everyone else's is unchanged. -/
theorem dayCount_assign (st : MemStorage) (b : Booking) (hid uid lo hi : Nat)
    (hb : getBooking st b.id = some b)
    (hpend : b.cleaningStatus = "pending")
    (hlo : lo ≤ b.checkOut) (hhi : b.checkOut ≤ hi) :
    dayCount (updateBooking st b.id (assignPatch hid)).2 lo hi uid =
      dayCount st lo hi uid + (if uid = hid then 1 else 0) := by
  unfold dayCount
  rw [updateBooking_bookings]
  have hcount := updateFirstBooking_countP st.bookings b.id (assignPatch hid) b
    (dayPred lo hi uid) hb
  have hfalse : dayPred lo hi uid b = false := by
    simp [dayPred, hpend]
  have hpatched : dayPred lo hi uid (applyBookingPatch b (assignPatch hid)) =
      decide (uid = hid) := by
    rw [applyBookingPatch_assign]
    by_cases h : uid = hid
    · subst h
      simp [dayPred, hlo, hhi]
    · simp [dayPred, h, Ne.symm h]
  rw [hfalse, hpatched] at hcount
  by_cases h : uid = hid
  · simp [h] at hcount ⊢
    omega
  · simp [h] at hcount ⊢
    omega

/-- Effect of one assignStep: the invariant is preserved, the processed
booking is now stored as assigned to the chosen housekeeper, and every
other booking record is untouched. -/
theorem assignStep_spec (st0 : MemStorage) (avail : List User) (lo hi : Nat)
    (s : AutoState) (b : Booking) (hid : Nat)
    (hInv : Inv st0 avail lo hi s)
    (hb : getBooking s.st b.id = some b)
    (hpend : b.cleaningStatus = "pending")
    (hlo : lo ≤ b.checkOut) (hhi : b.checkOut ≤ hi)
    (hhid : hid ∈ availIdsOf avail) :
    Inv st0 avail lo hi (assignStep s b.id hid) ∧
    getBooking (assignStep s b.id hid).st b.id =
      some { b with cleaningStatus := "assigned", housekeeperId := some hid } ∧
    (∀ j, j ≠ b.id → getBooking (assignStep s b.id hid).st j = getBooking s.st j) := by
  refine ⟨⟨?_, ?_, ?_, ?_, ?_⟩, ?_, ?_⟩
  · rw [show (assignStep s b.id hid).st =
      (updateBooking s.st b.id (assignPatch hid)).2 from rfl]
    rw [updateBooking_availability]
    exact hInv.availEq
  · rw [show (assignStep s b.id hid).st =
      (updateBooking s.st b.id (assignPatch hid)).2 from rfl]
    rw [updateBooking_properties]
    exact hInv.propsEq
  · rw [show (assignStep s b.id hid).st =
      (updateBooking s.st b.id (assignPatch hid)).2 from rfl]
    rw [updateBooking_bookings_map_id]
    exact hInv.idsEq
  · intro uid hmem
    rw [show (assignStep s b.id hid).st =
      (updateBooking s.st b.id (assignPatch hid)).2 from rfl]
    rw [dayCount_assign s.st b hid uid lo hi hb hpend hlo hhi]
    rw [show (assignStep s b.id hid).cnt = bump s.cnt hid from rfl]
    unfold bump
    by_cases h : uid = hid
    · subst h
      rw [if_pos rfl, if_pos rfl, hInv.cntEq uid hmem]
    · rw [if_neg h, if_neg h, hInv.cntEq uid hmem]
      simp
  · intro uid hmem
    rw [show (assignStep s b.id hid).st =
      (updateBooking s.st b.id (assignPatch hid)).2 from rfl]
    rw [dayCount_assign s.st b hid uid lo hi hb hpend hlo hhi]
    have h : uid ≠ hid := fun h => hmem (h ▸ hhid)
    rw [if_neg h]
    simp [hInv.outEq uid hmem]
  · rw [show (assignStep s b.id hid).st =
      (updateBooking s.st b.id (assignPatch hid)).2 from rfl]
    rw [getBooking_updateBooking_self s.st b.id (assignPatch hid) b hb]
    rw [applyBookingPatch_assign]
  · intro j hj
    rw [show (assignStep s b.id hid).st =
      (updateBooking s.st b.id (assignPatch hid)).2 from rfl]
    exact getBooking_updateBooking_other s.st b.id j (assignPatch hid) hj

theorem defaultChoice_spec (s : AutoState) (avail : List User) (wd : Nat)
    (b : Booking) (d : Nat) (h : defaultChoice s avail wd b = some d) :
    d ∈ availIdsOf avail ∧ underCapacity s wd d = true := by
  unfold defaultChoice at h
  split at h
  · exact absurd h (by simp)
  · split at h
    · exact absurd h (by simp)
    · split at h
      · rename_i hg
        injection h with hdd
        subst hdd
        simp only [Bool.and_eq_true, List.any_eq_true, beq_iff_eq] at hg
        refine ⟨?_, hg.2⟩
        rcases hg.1.2 with ⟨u, hu, hud⟩
        exact hud ▸ List.mem_map_of_mem _ hu
      · exact absurd h (by simp)

/-- Phase 1 master lemma: the invariant is carried through, the deferred
bookings form a sublist still stored untouched and pending, bookings
outside the worklist are untouched, assignmentsMade grows by exactly the
number of worklist bookings stored as assigned afterwards, and every
worklist booking is either deferred or stored as assigned. -/
theorem phase1_spec (st0 : MemStorage) (avail : List User) (wd lo hi : Nat)
    (todo : List Booking) :
    ∀ (s : AutoState),
    Inv st0 avail lo hi s →
    TodoOk lo hi s todo →
    (todo.map (fun b => b.id)).Nodup →
    Inv st0 avail lo hi (phase1 avail wd todo s).1 ∧
    TodoOk lo hi (phase1 avail wd todo s).1 (phase1 avail wd todo s).2 ∧
    (phase1 avail wd todo s).2.Sublist todo ∧
    (∀ j, j ∉ todo.map (fun b => b.id) →
      getBooking (phase1 avail wd todo s).1.st j = getBooking s.st j) ∧
    (phase1 avail wd todo s).1.made =
      s.made + todo.countP
        (fun b => statusAt (phase1 avail wd todo s).1.st b.id == some "assigned") ∧
    (∀ b ∈ todo, b ∈ (phase1 avail wd todo s).2 ∨
      statusAt (phase1 avail wd todo s).1.st b.id = some "assigned") := by
  induction todo with
  | nil =>
    intro s hInv hTodo hnd
    refine ⟨hInv, ?_, List.Sublist.refl _, fun j _ => rfl, by simp [phase1], ?_⟩
    · intro b hb
      simp [phase1] at hb
    · intro b hb
      simp at hb
  | cons b rest ih =>
    intro s hInv hTodo hnd
    obtain ⟨hgb, hpend, hlo, hhi⟩ := hTodo b (List.mem_cons_self ..)
    have hTodoRest : TodoOk lo hi s rest :=
      fun x hx => hTodo x (List.mem_cons_of_mem _ hx)
    rw [List.map_cons, List.nodup_cons] at hnd
    have hndRest := hnd.2
    have hbNotin : b.id ∉ rest.map (fun x => x.id) := hnd.1
    cases hd : defaultChoice s avail wd b with
    | some d =>
      have hphase : phase1 avail wd (b :: rest) s =
          phase1 avail wd rest (assignStep s b.id d) := by
        rw [phase1, hd]
      obtain ⟨hdmem, _⟩ := defaultChoice_spec s avail wd b d hd
      obtain ⟨hInv', hself, hother⟩ :=
        assignStep_spec st0 avail lo hi s b d hInv hgb hpend hlo hhi hdmem
      have hTodoRest' : TodoOk lo hi (assignStep s b.id d) rest := by
        intro x hx
        obtain ⟨hg, hp, l1, l2⟩ := hTodoRest x hx
        have hxid : x.id ≠ b.id := by
          intro hEq
          exact hbNotin (hEq ▸ List.mem_map_of_mem _ hx)
        refine ⟨?_, hp, l1, l2⟩
        rw [hother x.id hxid]
        exact hg
      obtain ⟨ihInv, ihTodo, ihSub, ihUn, ihMade, ihDisj⟩ :=
        ih (assignStep s b.id d) hInv' hTodoRest' hndRest
      rw [hphase]
      have hbFinal : getBooking (phase1 avail wd rest (assignStep s b.id d)).1.st b.id =
          some { b with cleaningStatus := "assigned", housekeeperId := some d } := by
        rw [ihUn b.id hbNotin]
        exact hself
      have hbStatus : statusAt (phase1 avail wd rest (assignStep s b.id d)).1.st b.id =
          some "assigned" := by
        simp [statusAt, hbFinal]
      refine ⟨ihInv, ihTodo, ihSub.cons b, ?_, ?_, ?_⟩
      · intro j hj
        rw [List.map_cons, List.mem_cons] at hj
        push_neg at hj
        rw [ihUn j hj.2]
        exact hother j hj.1
      · have hcond : (statusAt (phase1 avail wd rest (assignStep s b.id d)).1.st b.id ==
            some "assigned") = true := by
          rw [hbStatus]
          rfl
        have hs1 : (assignStep s b.id d).made = s.made + 1 := rfl
        have hone : (if (true = true) then 1 else 0) = 1 := rfl
        simp only [List.countP_cons]
        rw [ihMade, hcond, hs1, hone]
        omega
      · intro x hx
        rcases List.mem_cons.1 hx with h | h
        · subst h
          exact Or.inr hbStatus
        · exact ihDisj x h
    | none =>
      have hphase : phase1 avail wd (b :: rest) s =
          ((phase1 avail wd rest s).1, b :: (phase1 avail wd rest s).2) := by
        rw [phase1, hd]
      obtain ⟨ihInv, ihTodo, ihSub, ihUn, ihMade, ihDisj⟩ :=
        ih s hInv hTodoRest hndRest
      rw [hphase]
      have hbKept : getBooking (phase1 avail wd rest s).1.st b.id = some b := by
        rw [ihUn b.id hbNotin]
        exact hgb
      have hbStatus : statusAt (phase1 avail wd rest s).1.st b.id =
          some "pending" := by
        simp [statusAt, hbKept, hpend]
      refine ⟨ihInv, ?_, ihSub.cons₂ b, ?_, ?_, ?_⟩
      · intro x hx
        rcases List.mem_cons.1 hx with h | h
        · subst h
          exact ⟨hbKept, hpend, hlo, hhi⟩
        · exact ihTodo x h
      · intro j hj
        rw [List.map_cons, List.mem_cons] at hj
        push_neg at hj
        exact ihUn j hj.2
      · have hcond : (statusAt (phase1 avail wd rest s).1.st b.id ==
            some "assigned") = false := by
          rw [hbStatus]
          rfl
        have hzero : (if (false = true) then 1 else 0) = 0 := rfl
        simp only [List.countP_cons]
        rw [ihMade, hcond, hzero]
        omega
      · intro x hx
        rcases List.mem_cons.1 hx with h | h
        · subst h
          exact Or.inl (List.mem_cons_self ..)
        · rcases ihDisj x h with h1 | h1
          · exact Or.inl (List.mem_cons_of_mem _ h1)
          · exact Or.inr h1

/-- Phase 2 master lemma: the invariant is carried through, bookings
outside the worklist are untouched, assignmentsMade grows by exactly the
number of worklist bookings stored as assigned afterwards, and every
worklist booking is either still stored unchanged or stored as
assigned. -/
theorem phase2_spec (st0 : MemStorage) (avail : List User) (wd lo hi : Nat)
    (todo : List Booking) :
    ∀ (s : AutoState),
    Inv st0 avail lo hi s →
    TodoOk lo hi s todo →
    (todo.map (fun b => b.id)).Nodup →
    Inv st0 avail lo hi (phase2 avail wd todo s) ∧
    (∀ j, j ∉ todo.map (fun b => b.id) →
      getBooking (phase2 avail wd todo s).st j = getBooking s.st j) ∧
    (phase2 avail wd todo s).made =
      s.made + todo.countP
        (fun b => statusAt (phase2 avail wd todo s).st b.id == some "assigned") ∧
    (∀ b ∈ todo, getBooking (phase2 avail wd todo s).st b.id = some b ∨
      statusAt (phase2 avail wd todo s).st b.id = some "assigned") := by
  induction todo with
  | nil =>
    intro s hInv hTodo hnd
    refine ⟨hInv, fun j _ => rfl, by simp [phase2], ?_⟩
    intro b hb
    simp at hb
  | cons b rest ih =>
    intro s hInv hTodo hnd
    obtain ⟨hgb, hpend, hlo, hhi⟩ := hTodo b (List.mem_cons_self ..)
    have hTodoRest : TodoOk lo hi s rest :=
      fun x hx => hTodo x (List.mem_cons_of_mem _ hx)
    rw [List.map_cons, List.nodup_cons] at hnd
    have hndRest := hnd.2
    have hbNotin : b.id ∉ rest.map (fun x => x.id) := hnd.1
    cases hf : (sortByCnt s.cnt avail).find? (fun h => underCapacity s wd h.id) with
    | some h =>
      have hphase : phase2 avail wd (b :: rest) s =
          phase2 avail wd rest (assignStep s b.id h.id) := by
        rw [phase2, hf]
      have hmem : h.id ∈ availIdsOf avail := by
        have := (mem_sortByCnt s.cnt h avail).1 (List.mem_of_find?_eq_some hf)
        exact List.mem_map_of_mem _ this
      obtain ⟨hInv', hself, hother⟩ :=
        assignStep_spec st0 avail lo hi s b h.id hInv hgb hpend hlo hhi hmem
      have hTodoRest' : TodoOk lo hi (assignStep s b.id h.id) rest := by
        intro x hx
        obtain ⟨hg, hp, l1, l2⟩ := hTodoRest x hx
        have hxid : x.id ≠ b.id := by
          intro hEq
          exact hbNotin (hEq ▸ List.mem_map_of_mem _ hx)
        refine ⟨?_, hp, l1, l2⟩
        rw [hother x.id hxid]
        exact hg
      obtain ⟨ihInv, ihUn, ihMade, ihDisj⟩ :=
        ih (assignStep s b.id h.id) hInv' hTodoRest' hndRest
      rw [hphase]
      have hbFinal : getBooking (phase2 avail wd rest (assignStep s b.id h.id)).st b.id =
          some { b with cleaningStatus := "assigned", housekeeperId := some h.id } := by
        rw [ihUn b.id hbNotin]
        exact hself
      have hbStatus : statusAt (phase2 avail wd rest (assignStep s b.id h.id)).st b.id =
          some "assigned" := by
        simp [statusAt, hbFinal]
      refine ⟨ihInv, ?_, ?_, ?_⟩
      · intro j hj
        rw [List.map_cons, List.mem_cons] at hj
        push_neg at hj
        rw [ihUn j hj.2]
        exact hother j hj.1
      · have hcond : (statusAt (phase2 avail wd rest (assignStep s b.id h.id)).st b.id ==
            some "assigned") = true := by
          rw [hbStatus]
          rfl
        have hs1 : (assignStep s b.id h.id).made = s.made + 1 := rfl
        have hone : (if (true = true) then 1 else 0) = 1 := rfl
        simp only [List.countP_cons]
        rw [ihMade, hcond, hs1, hone]
        omega
      · intro x hx
        rcases List.mem_cons.1 hx with h1 | h1
        · subst h1
          exact Or.inr hbStatus
        · exact ihDisj x h1
    | none =>
      have hphase : phase2 avail wd (b :: rest) s = phase2 avail wd rest s := by
        rw [phase2, hf]
      obtain ⟨ihInv, ihUn, ihMade, ihDisj⟩ := ih s hInv hTodoRest hndRest
      rw [hphase]
      have hbKept : getBooking (phase2 avail wd rest s).st b.id = some b := by
        rw [ihUn b.id hbNotin]
        exact hgb
      have hbStatus : statusAt (phase2 avail wd rest s).st b.id =
          some "pending" := by
        simp [statusAt, hbKept, hpend]
      refine ⟨ihInv, ?_, ?_, ?_⟩
      · intro j hj
        rw [List.map_cons, List.mem_cons] at hj
        push_neg at hj
        exact ihUn j hj.2
      · have hcond : (statusAt (phase2 avail wd rest s).st b.id ==
            some "assigned") = false := by
          rw [hbStatus]
          rfl
        have hzero : (if (false = true) then 1 else 0) = 0 := rfl
        simp only [List.countP_cons]
        rw [ihMade, hcond, hzero]
        omega
      · intro x hx
        rcases List.mem_cons.1 hx with h1 | h1
        · subst h1
          exact Or.inl hbKept
        · exact ihDisj x h1

/-! ### The capacity bound carried through the phases -/

theorem assignStep_cntBound (st0 : MemStorage) (avail : List User) (wd : Nat)
    (s : AutoState) (bid hid : Nat)
    (hA : s.st.availability = st0.availability)
    (hcap : underCapacity s wd hid = true)
    (hCB : CntBound st0 avail wd s) :
    CntBound st0 avail wd (assignStep s bid hid) := by
  intro uid w hmem hw
  show bump s.cnt hid uid ≤ _
  unfold bump
  by_cases h : uid = hid
  · subst h
    rw [if_pos rfl]
    unfold underCapacity at hcap
    rw [firstWindow_congr st0 s.st uid wd hA, hw] at hcap
    simp only [decide_eq_true_eq] at hcap
    omega
  · rw [if_neg h]
    exact hCB uid w hmem hw

theorem assignStep_availability (s : AutoState) (bid hid : Nat) :
    (assignStep s bid hid).st.availability = s.st.availability :=
  updateBooking_availability s.st bid (assignPatch hid)

theorem phase1_cntBound (st0 : MemStorage) (avail : List User)
    (wd : Nat) (todo : List Booking) :
    ∀ (s : AutoState),
    s.st.availability = st0.availability →
    CntBound st0 avail wd s →
    CntBound st0 avail wd (phase1 avail wd todo s).1 := by
  induction todo with
  | nil => intro s _ hCB; exact hCB
  | cons b rest ih =>
    intro s hA hCB
    cases hd : defaultChoice s avail wd b with
    | some d =>
      rw [show phase1 avail wd (b :: rest) s =
        phase1 avail wd rest (assignStep s b.id d) from by rw [phase1, hd]]
      obtain ⟨_, hdcap⟩ := defaultChoice_spec s avail wd b d hd
      exact ih (assignStep s b.id d)
        ((assignStep_availability s b.id d).trans hA)
        (assignStep_cntBound st0 avail wd s b.id d hA hdcap hCB)
    | none =>
      rw [show phase1 avail wd (b :: rest) s =
        ((phase1 avail wd rest s).1, b :: (phase1 avail wd rest s).2) from
          by rw [phase1, hd]]
      exact ih s hA hCB

theorem phase2_cntBound (st0 : MemStorage) (avail : List User)
    (wd : Nat) (todo : List Booking) :
    ∀ (s : AutoState),
    s.st.availability = st0.availability →
    CntBound st0 avail wd s →
    CntBound st0 avail wd (phase2 avail wd todo s) := by
  induction todo with
  | nil => intro s _ hCB; exact hCB
  | cons b rest ih =>
    intro s hA hCB
    cases hf : (sortByCnt s.cnt avail).find? (fun h => underCapacity s wd h.id) with
    | some h =>
      rw [show phase2 avail wd (b :: rest) s =
        phase2 avail wd rest (assignStep s b.id h.id) from by rw [phase2, hf]]
      have hcap : underCapacity s wd h.id = true := by
        have h1 := List.find?_some hf
        exact h1
      exact ih (assignStep s b.id h.id)
        ((assignStep_availability s b.id h.id).trans hA)
        (assignStep_cntBound st0 avail wd s b.id h.id hA hcap hCB)
    | none =>
      rw [show phase2 avail wd (b :: rest) s = phase2 avail wd rest s from
        by rw [phase2, hf]]
      exact ih s hA hCB

/-! ### Setting up the initial state of an auto-assign call -/

theorem availIds_subset_users (st : MemStorage) (date : Nat) (uid : Nat)
    (h : uid ∈ availIdsOf (getAvailableHousekeepersForDate st date)) :
    ∃ u ∈ st.users, u.id = uid := by
  unfold availIdsOf at h
  rcases List.mem_map.1 h with ⟨u, hu, hid⟩
  unfold getAvailableHousekeepersForDate at hu
  have h1 := List.mem_filter.1 hu
  have h2 := List.mem_filter.1 h1.1
  exact ⟨u, h2.1, hid⟩

theorem availIds_ne_zero (st : MemStorage) (date : Nat) (uid : Nat)
    (hpos : ∀ u ∈ st.users, u.id ≠ 0)
    (h : uid ∈ availIdsOf (getAvailableHousekeepersForDate st date)) :
    uid ≠ 0 := by
  rcases availIds_subset_users st date uid h with ⟨u, hu, hid⟩
  exact hid ▸ hpos u hu

theorem init_cntEq (st : MemStorage) (date : Nat) (uid : Nat)
    (hmem : uid ∈ availIdsOf (getAvailableHousekeepersForDate st date))
    (hpos : ∀ u ∈ st.users, u.id ≠ 0) :
    (initAuto st date).cnt uid =
      dayCount st (startOfDay date) (endOfDay date) uid := by
  show seedCounts _ _ uid = _
  rw [seedCounts_spec _ _ uid hmem (availIds_ne_zero st date uid hpos hmem)]
  unfold assignedFor getBookingsByCheckoutDate dayCount
  rw [List.countP_filter, List.countP_filter]
  apply List.countP_congr
  intro b _
  unfold dayPred
  simp only [Bool.and_eq_true, Bool.or_eq_true, decide_eq_true_eq]
  tauto

theorem init_todoOk (st : MemStorage) (date : Nat)
    (hnd : (st.bookings.map (fun b => b.id)).Nodup) :
    TodoOk (startOfDay date) (endOfDay date) (initAuto st date)
      (pendingFor st date) := by
  intro b hb
  unfold pendingFor getBookingsByCheckoutDate at hb
  have h1 := List.mem_filter.1 hb
  have h2 := List.mem_filter.1 h1.1
  simp only [Bool.and_eq_true, decide_eq_true_eq] at h2
  refine ⟨?_, ?_, h2.2.1, h2.2.2⟩
  · exact find?_of_mem_nodup_booking st.bookings b h2.1 hnd
  · simpa using h1.2

theorem pendingFor_sublist (st : MemStorage) (date : Nat) :
    (pendingFor st date).Sublist st.bookings := by
  unfold pendingFor getBookingsByCheckoutDate
  exact (List.filter_sublist _).trans (List.filter_sublist _)

theorem pendingFor_nodup (st : MemStorage) (date : Nat)
    (hnd : (st.bookings.map (fun b => b.id)).Nodup) :
    ((pendingFor st date).map (fun b => b.id)).Nodup :=
  List.Nodup.sublist ((pendingFor_sublist st date).map _) hnd

theorem init_inv (st : MemStorage) (date : Nat)
    (hpos : ∀ u ∈ st.users, u.id ≠ 0) :
    Inv st (getAvailableHousekeepersForDate st date)
      (startOfDay date) (endOfDay date) (initAuto st date) := by
  refine ⟨rfl, rfl, rfl, ?_, ?_⟩
  · intro uid hmem
    exact init_cntEq st date uid hmem hpos
  · intro uid _
    rfl

theorem eq_of_mem_of_id_eq (l : List Booking)
    (hnd : (l.map (fun x => x.id)).Nodup) (b b' : Booking)
    (hb : b ∈ l) (hb' : b' ∈ l) (hid : b.id = b'.id) : b = b' := by
  have h1 := find?_of_mem_nodup_booking l b hb hnd
  have h2 := find?_of_mem_nodup_booking l b' hb' hnd
  rw [← hid] at h2
  rw [h1] at h2
  exact Option.some.inj h2

theorem statusAt_congr (st st' : MemStorage) (j : Nat)
    (h : getBooking st' j = getBooking st j) :
    statusAt st' j = statusAt st j := by
  unfold statusAt
  rw [h]

/-- Combined behaviour of phase 1 followed by phase 2: bookings outside
the pending worklist are untouched, the final assignmentsMade counter is
exactly the number of worklist bookings stored as assigned at the end,
and every worklist booking is either untouched or stored as assigned. -/
theorem autoRun_spec (st : MemStorage) (date : Nat)
    (hnd : (st.bookings.map (fun b => b.id)).Nodup)
    (hpos : ∀ u ∈ st.users, u.id ≠ 0) :
    (∀ j, j ∉ (pendingFor st date).map (fun b => b.id) →
      getBooking (autoRun st date).st j = getBooking st j) ∧
    (autoRun st date).made = (pendingFor st date).countP
      (fun b => statusAt (autoRun st date).st b.id == some "assigned") ∧
    (∀ b ∈ pendingFor st date, getBooking (autoRun st date).st b.id = some b ∨
      statusAt (autoRun st date).st b.id = some "assigned") := by
  have hndP := pendingFor_nodup st date hnd
  obtain ⟨hInv1, hTodo1, hSub1, hUn1, hMade1, hDisj1⟩ :=
    phase1_spec st (getAvailableHousekeepersForDate st date) (getDay date)
      (startOfDay date) (endOfDay date) (pendingFor st date) (initAuto st date)
      (init_inv st date hpos) (init_todoOk st date hnd) hndP
  have hndR : (((phase1 (getAvailableHousekeepersForDate st date) (getDay date)
      (pendingFor st date) (initAuto st date)).2).map (fun b => b.id)).Nodup :=
    List.Nodup.sublist (hSub1.map _) hndP
  obtain ⟨hInv2, hUn2, hMade2, hDisj2⟩ :=
    phase2_spec st (getAvailableHousekeepersForDate st date) (getDay date)
      (startOfDay date) (endOfDay date) _ _ hInv1 hTodo1 hndR
  have hrun : autoRun st date =
      phase2 (getAvailableHousekeepersForDate st date) (getDay date)
        (phase1 (getAvailableHousekeepersForDate st date) (getDay date)
          (pendingFor st date) (initAuto st date)).2
        (phase1 (getAvailableHousekeepersForDate st date) (getDay date)
          (pendingFor st date) (initAuto st date)).1 := rfl
  -- ids of the deferred bookings are ids of pending bookings
  have hRemSubIds : ∀ j, j ∈ ((phase1 (getAvailableHousekeepersForDate st date)
      (getDay date) (pendingFor st date) (initAuto st date)).2).map
        (fun b => b.id) → j ∈ (pendingFor st date).map (fun b => b.id) :=
    fun j hj => (hSub1.map (fun b => b.id)).subset hj
  have hUntouched : ∀ j, j ∉ (pendingFor st date).map (fun b => b.id) →
      getBooking (autoRun st date).st j = getBooking st j := by
    intro j hj
    rw [hrun]
    rw [hUn2 j (fun hmem => hj (hRemSubIds j hmem))]
    exact hUn1 j hj
  -- a booking of the worklist that phase 1 stored as assigned keeps its
  -- record through phase 2
  have hKeep : ∀ b ∈ pendingFor st date,
      statusAt (phase1 (getAvailableHousekeepersForDate st date) (getDay date)
        (pendingFor st date) (initAuto st date)).1.st b.id = some "assigned" →
      statusAt (autoRun st date).st b.id = some "assigned" := by
    intro b _ hA1
    have hnotin : b.id ∉ ((phase1 (getAvailableHousekeepersForDate st date)
        (getDay date) (pendingFor st date) (initAuto st date)).2).map
          (fun x => x.id) := by
      intro hmem
      rcases List.mem_map.1 hmem with ⟨b', hb'mem, hb'id⟩
      obtain ⟨hg', hp', _, _⟩ := hTodo1 b' hb'mem
      rw [← hb'id] at hA1
      unfold statusAt at hA1
      rw [hg'] at hA1
      simp [hp'] at hA1
    rw [hrun, statusAt_congr _ _ _ (hUn2 b.id hnotin)]
    exact hA1
  refine ⟨hUntouched, ?_, ?_⟩
  · -- the returned counter counts the worklist bookings now assigned
    rw [hrun, hMade2, hMade1]
    have hzero : (initAuto st date).made = 0 := rfl
    rw [hzero]
    have hsplit := countP_and_split (pendingFor st date)
      (fun b => statusAt (phase2 (getAvailableHousekeepersForDate st date)
        (getDay date)
        (phase1 (getAvailableHousekeepersForDate st date) (getDay date)
          (pendingFor st date) (initAuto st date)).2
        (phase1 (getAvailableHousekeepersForDate st date) (getDay date)
          (pendingFor st date) (initAuto st date)).1).st b.id == some "assigned")
      (fun b => statusAt (phase1 (getAvailableHousekeepersForDate st date)
        (getDay date) (pendingFor st date) (initAuto st date)).1.st b.id ==
          some "assigned")
    have hterm1 : (pendingFor st date).countP
        (fun b => (statusAt (phase2 (getAvailableHousekeepersForDate st date)
          (getDay date)
          (phase1 (getAvailableHousekeepersForDate st date) (getDay date)
            (pendingFor st date) (initAuto st date)).2
          (phase1 (getAvailableHousekeepersForDate st date) (getDay date)
            (pendingFor st date) (initAuto st date)).1).st b.id ==
            some "assigned") &&
          (statusAt (phase1 (getAvailableHousekeepersForDate st date)
            (getDay date) (pendingFor st date) (initAuto st date)).1.st b.id ==
            some "assigned")) =
        (pendingFor st date).countP
          (fun b => statusAt (phase1 (getAvailableHousekeepersForDate st date)
            (getDay date) (pendingFor st date) (initAuto st date)).1.st b.id ==
            some "assigned") := by
      apply List.countP_congr
      intro b hb
      simp only [Bool.and_eq_true, beq_iff_eq]
      constructor
      · exact fun h => h.2
      · intro h
        refine ⟨?_, h⟩
        have := hKeep b hb (by exact h)
        rw [hrun] at this
        exact this
    have hterm2 : (pendingFor st date).countP
        (fun b => (statusAt (phase2 (getAvailableHousekeepersForDate st date)
          (getDay date)
          (phase1 (getAvailableHousekeepersForDate st date) (getDay date)
            (pendingFor st date) (initAuto st date)).2
          (phase1 (getAvailableHousekeepersForDate st date) (getDay date)
            (pendingFor st date) (initAuto st date)).1).st b.id ==
            some "assigned") &&
          !(statusAt (phase1 (getAvailableHousekeepersForDate st date)
            (getDay date) (pendingFor st date) (initAuto st date)).1.st b.id ==
            some "assigned")) =
        (pendingFor st date).countP
          (fun b => decide (b ∈ (phase1 (getAvailableHousekeepersForDate st date)
            (getDay date) (pendingFor st date) (initAuto st date)).2) &&
            (statusAt (phase2 (getAvailableHousekeepersForDate st date)
              (getDay date)
              (phase1 (getAvailableHousekeepersForDate st date) (getDay date)
                (pendingFor st date) (initAuto st date)).2
              (phase1 (getAvailableHousekeepersForDate st date) (getDay date)
                (pendingFor st date) (initAuto st date)).1).st b.id ==
              some "assigned")) := by
      apply List.countP_congr
      intro b hb
      simp only [Bool.and_eq_true, Bool.not_eq_true', beq_iff_eq,
        beq_eq_false_iff_ne, ne_eq, decide_eq_true_eq]
      constructor
      · rintro ⟨hA2, hnA1⟩
        rcases hDisj1 b hb with hmem | hA1
        · exact ⟨hmem, hA2⟩
        · exact absurd hA1 hnA1
      · rintro ⟨hmem, hA2⟩
        obtain ⟨hg', hp', _, _⟩ := hTodo1 b hmem
        refine ⟨hA2, ?_⟩
        unfold statusAt
        rw [hg']
        simp [hp']
    have hterm3 : (pendingFor st date).countP
        (fun b => decide (b ∈ (phase1 (getAvailableHousekeepersForDate st date)
          (getDay date) (pendingFor st date) (initAuto st date)).2) &&
          (statusAt (phase2 (getAvailableHousekeepersForDate st date)
            (getDay date)
            (phase1 (getAvailableHousekeepersForDate st date) (getDay date)
              (pendingFor st date) (initAuto st date)).2
            (phase1 (getAvailableHousekeepersForDate st date) (getDay date)
              (pendingFor st date) (initAuto st date)).1).st b.id ==
            some "assigned")) =
        ((phase1 (getAvailableHousekeepersForDate st date) (getDay date)
          (pendingFor st date) (initAuto st date)).2).countP
          (fun b => statusAt (phase2 (getAvailableHousekeepersForDate st date)
            (getDay date)
            (phase1 (getAvailableHousekeepersForDate st date) (getDay date)
              (pendingFor st date) (initAuto st date)).2
            (phase1 (getAvailableHousekeepersForDate st date) (getDay date)
              (pendingFor st date) (initAuto st date)).1).st b.id ==
            some "assigned") :=
      countP_sublist_mem _ _ hSub1 (List.Nodup.of_map _ hndP) _
    rw [hsplit, hterm1, hterm2, hterm3]
    omega
  · intro b hb
    rcases hDisj1 b hb with hmem | hA1
    · rcases hDisj2 b hmem with h | h
      · rw [hrun]
        exact Or.inl h
      · rw [hrun]
        exact Or.inr h
    · exact Or.inr (hKeep b hb hA1)

/-! ### Claim theorems -/

/-- C1. Capacity respected by a single sequential auto-assign call:
starting from a well-formed store (distinct booking ids, nonzero user
ids) in which every staff member with a window for the date's weekday is
within that window's capacity, after autoAssignHousekeepers(date) every
staff member's count of same-day assigned-or-completed bookings still
does not exceed the maxCleanings of their (first) window for that
weekday. -/
theorem autoAssign_respects_capacity (st : MemStorage) (date : Nat)
    (hnd : (st.bookings.map (fun b => b.id)).Nodup)
    (hpos : ∀ u ∈ st.users, u.id ≠ 0)
    (hW : ∀ u ∈ st.users, ∀ w ∈ firstWindow st u.id (getDay date),
      dayCount st (startOfDay date) (endOfDay date) u.id ≤
        w.maxCleanings.getD 0) :
    ∀ u ∈ st.users, ∀ w ∈ firstWindow st u.id (getDay date),
      dayCount (autoAssignHousekeepers st date).2
        (startOfDay date) (endOfDay date) u.id ≤ w.maxCleanings.getD 0 := by
  unfold autoAssignHousekeepers
  by_cases hp : (pendingFor st date).isEmpty
  · rw [if_pos hp]
    exact hW
  rw [if_neg hp]
  by_cases ha : (getAvailableHousekeepersForDate st date).isEmpty
  · rw [if_pos ha]
    exact hW
  rw [if_neg ha]
  have hndP := pendingFor_nodup st date hnd
  obtain ⟨hInv1, hTodo1, hSub1, hUn1, hMade1, hDisj1⟩ :=
    phase1_spec st (getAvailableHousekeepersForDate st date) (getDay date)
      (startOfDay date) (endOfDay date) (pendingFor st date) (initAuto st date)
      (init_inv st date hpos) (init_todoOk st date hnd) hndP
  have hndR : (((phase1 (getAvailableHousekeepersForDate st date) (getDay date)
      (pendingFor st date) (initAuto st date)).2).map (fun b => b.id)).Nodup :=
    List.Nodup.sublist (hSub1.map _) hndP
  obtain ⟨hInv2, hUn2, hMade2, hDisj2⟩ :=
    phase2_spec st (getAvailableHousekeepersForDate st date) (getDay date)
      (startOfDay date) (endOfDay date) _ _ hInv1 hTodo1 hndR
  have hCB0 : CntBound st (getAvailableHousekeepersForDate st date)
      (getDay date) (initAuto st date) := by
    intro uid w hmem hw
    rw [init_cntEq st date uid hmem hpos]
    rcases availIds_subset_users st date uid hmem with ⟨u, hu, hid⟩
    subst hid
    exact hW u hu w (Option.mem_def.2 hw)
  have hCB1 := phase1_cntBound st (getAvailableHousekeepersForDate st date)
    (getDay date) (pendingFor st date) (initAuto st date) rfl hCB0
  have hCB2 := phase2_cntBound st (getAvailableHousekeepersForDate st date)
    (getDay date)
    (phase1 (getAvailableHousekeepersForDate st date) (getDay date)
      (pendingFor st date) (initAuto st date)).2
    (phase1 (getAvailableHousekeepersForDate st date) (getDay date)
      (pendingFor st date) (initAuto st date)).1
    hInv1.availEq hCB1
  intro u hu w hw
  rw [Option.mem_def] at hw
  show dayCount (autoRun st date).st (startOfDay date) (endOfDay date) u.id ≤ _
  by_cases hmem : u.id ∈ availIdsOf (getAvailableHousekeepersForDate st date)
  · have hc := hInv2.cntEq u.id hmem
    show dayCount (phase2 (getAvailableHousekeepersForDate st date) (getDay date)
      (phase1 (getAvailableHousekeepersForDate st date) (getDay date)
        (pendingFor st date) (initAuto st date)).2
      (phase1 (getAvailableHousekeepersForDate st date) (getDay date)
        (pendingFor st date) (initAuto st date)).1).st
        (startOfDay date) (endOfDay date) u.id ≤ _
    rw [← hc]
    exact hCB2 u.id w hmem hw
  · show dayCount (phase2 (getAvailableHousekeepersForDate st date) (getDay date)
      (phase1 (getAvailableHousekeepersForDate st date) (getDay date)
        (pendingFor st date) (initAuto st date)).2
      (phase1 (getAvailableHousekeepersForDate st date) (getDay date)
        (pendingFor st date) (initAuto st date)).1).st
        (startOfDay date) (endOfDay date) u.id ≤ _
    rw [hInv2.outEq u.id hmem]
    exact hW u hu w (Option.mem_def.2 hw)

/-- C2. Eligibility correctness: a user is returned by
getAvailableHousekeepersForDate(date) exactly when they are a stored
user with role housekeeper, have at least one availability window for
the date's weekday, and have no approved time-off request whose
inclusive range covers the date. -/
theorem availableHousekeepers_iff (st : MemStorage) (date : Nat) (u : User) :
    u ∈ getAvailableHousekeepersForDate st date ↔
      u ∈ st.users ∧ u.role = "housekeeper" ∧
      (∃ a ∈ st.availability, a.housekeeperId = u.id ∧
        a.dayOfWeek = getDay date) ∧
      ¬ ∃ t ∈ st.timeOff, t.housekeeperId = u.id ∧ t.approved = true ∧
        t.startDate ≤ date ∧ date ≤ t.endDate := by
  unfold getAvailableHousekeepersForDate getTimeOffInDateRange
    getAvailabilitiesByHousekeeper
  simp only [List.mem_filter, Bool.and_eq_true, Bool.not_eq_true',
    List.elem_eq_mem, decide_eq_false_iff_not, List.mem_map,
    List.any_eq_true, beq_iff_eq, decide_eq_true_eq, Bool.or_eq_true]
  constructor
  · rintro ⟨⟨hu, hrole⟩, hnotin, ⟨a, ⟨ha, haid⟩, had⟩⟩
    refine ⟨hu, hrole, ⟨a, ha, haid, had⟩, ?_⟩
    rintro ⟨t, ht, htid, happ, hts, hte⟩
    exact hnotin ⟨t, ⟨⟨ht, hte, hts⟩, happ⟩, htid⟩
  · rintro ⟨hu, hrole, ⟨a, ha, haid, had⟩, hnt⟩
    refine ⟨⟨hu, hrole⟩, ?_, ⟨a, ⟨ha, haid⟩, had⟩⟩
    rintro ⟨t, ⟨⟨ht, hte, hts⟩, happ⟩, htid⟩
    exact hnt ⟨t, ht, htid, happ, hts, hte⟩

theorem mem_pendingFor (st : MemStorage) (date : Nat) (b : Booking) :
    b ∈ pendingFor st date ↔ b ∈ st.bookings ∧
      startOfDay date ≤ b.checkOut ∧ b.checkOut ≤ endOfDay date ∧
      b.cleaningStatus = "pending" := by
  unfold pendingFor getBookingsByCheckoutDate
  simp only [List.mem_filter, Bool.and_eq_true, decide_eq_true_eq, beq_iff_eq]
  tauto

theorem id_not_in_pendingFor (st : MemStorage) (date : Nat) (b : Booking)
    (hnd : (st.bookings.map (fun x => x.id)).Nodup)
    (hb : b ∈ st.bookings) (hnp : b ∉ pendingFor st date) :
    b.id ∉ (pendingFor st date).map (fun x => x.id) := by
  intro hmem
  rcases List.mem_map.1 hmem with ⟨b', hb', hid⟩
  have heq : b' = b := eq_of_mem_of_id_eq st.bookings hnd b' b
    ((pendingFor_sublist st date).subset hb') hb hid
  exact hnp (heq ▸ hb')

theorem countP_changed_zero (st : MemStorage)
    (hnd : (st.bookings.map (fun b => b.id)).Nodup) :
    st.bookings.countP (fun b => (b.cleaningStatus == "pending") &&
      (statusAt st b.id == some "assigned")) = 0 := by
  rw [List.countP_eq_zero]
  intro b hb
  simp only [Bool.and_eq_true, beq_iff_eq]
  rintro ⟨hpend, hstat⟩
  have hg := find?_of_mem_nodup_booking st.bookings b hb hnd
  unfold statusAt getBooking at hstat
  rw [hg] at hstat
  simp [hpend] at hstat

/-- C6. The returned count of autoAssignHousekeepers is exactly the
number of bookings whose cleaningStatus changed from pending to assigned
during the call; every pending booking that was not placed keeps its
record (in particular its pending status) unchanged; and the count never
exceeds the number of pending same-day obligations (a partial total is
normal, not an error). -/
theorem autoAssign_count_exact (st : MemStorage) (date : Nat)
    (hnd : (st.bookings.map (fun b => b.id)).Nodup)
    (hpos : ∀ u ∈ st.users, u.id ≠ 0) :
    (autoAssignHousekeepers st date).1 =
      st.bookings.countP (fun b => (b.cleaningStatus == "pending") &&
        (statusAt (autoAssignHousekeepers st date).2 b.id == some "assigned")) ∧
    (∀ b ∈ st.bookings, b.cleaningStatus = "pending" →
      statusAt (autoAssignHousekeepers st date).2 b.id ≠ some "assigned" →
      getBooking (autoAssignHousekeepers st date).2 b.id = some b) ∧
    (autoAssignHousekeepers st date).1 ≤ (pendingFor st date).length := by
  unfold autoAssignHousekeepers
  by_cases hp : (pendingFor st date).isEmpty
  · rw [if_pos hp]
    exact ⟨(countP_changed_zero st hnd).symm,
      fun b hb _ _ => find?_of_mem_nodup_booking st.bookings b hb hnd,
      Nat.zero_le _⟩
  rw [if_neg hp]
  by_cases ha : (getAvailableHousekeepersForDate st date).isEmpty
  · rw [if_pos ha]
    exact ⟨(countP_changed_zero st hnd).symm,
      fun b hb _ _ => find?_of_mem_nodup_booking st.bookings b hb hnd,
      Nat.zero_le _⟩
  rw [if_neg ha]
  obtain ⟨hUn, hMade, hDisj⟩ := autoRun_spec st date hnd hpos
  have hUntouchedStat : ∀ b ∈ st.bookings, b ∉ pendingFor st date →
      statusAt (autoRun st date).st b.id = statusAt st b.id := by
    intro b hb hnp
    exact statusAt_congr _ _ _
      (hUn b.id (id_not_in_pendingFor st date b hnd hb hnp))
  refine ⟨?_, ?_, ?_⟩
  · -- the count is exactly the number of pending-to-assigned transitions
    show (autoRun st date).made = _
    rw [hMade]
    have hsplit := countP_and_split st.bookings
      (fun b => (b.cleaningStatus == "pending") &&
        (statusAt (autoRun st date).st b.id == some "assigned"))
      (fun b => decide (startOfDay date ≤ b.checkOut) &&
        decide (b.checkOut ≤ endOfDay date))
    have hterm2 : st.bookings.countP
        (fun b => ((b.cleaningStatus == "pending") &&
          (statusAt (autoRun st date).st b.id == some "assigned")) &&
          !(decide (startOfDay date ≤ b.checkOut) &&
            decide (b.checkOut ≤ endOfDay date))) = 0 := by
      rw [List.countP_eq_zero]
      intro b hb
      simp only [Bool.and_eq_true, beq_iff_eq, Bool.not_eq_true',
        Bool.and_eq_false_iff, decide_eq_false_iff_not]
      rintro ⟨⟨hpend, hstat⟩, hday⟩
      have hnp : b ∉ pendingFor st date := by
        intro hmem
        rcases (mem_pendingFor st date b).1 hmem with ⟨_, h1, h2, _⟩
        rcases hday with h | h
        · exact h h1
        · exact h h2
      rw [hUntouchedStat b hb hnp] at hstat
      have hg := find?_of_mem_nodup_booking st.bookings b hb hnd
      unfold statusAt getBooking at hstat
      rw [hg] at hstat
      simp [hpend] at hstat
    have hterm1 : st.bookings.countP
        (fun b => ((b.cleaningStatus == "pending") &&
          (statusAt (autoRun st date).st b.id == some "assigned")) &&
          (decide (startOfDay date ≤ b.checkOut) &&
            decide (b.checkOut ≤ endOfDay date))) =
        (pendingFor st date).countP
          (fun b => statusAt (autoRun st date).st b.id == some "assigned") := by
      unfold pendingFor getBookingsByCheckoutDate
      rw [List.countP_filter, List.countP_filter]
      apply List.countP_congr
      intro b _
      simp only [Bool.and_eq_true, beq_iff_eq, decide_eq_true_eq]
      tauto
    rw [hsplit, hterm1, hterm2]
    omega
  · -- unplaced pending bookings keep their records
    intro b hb hpend hnass
    show getBooking (autoRun st date).st b.id = some b
    by_cases hmem : b ∈ pendingFor st date
    · rcases hDisj b hmem with h | h
      · exact h
      · exact absurd h hnass
    · rw [hUn b.id (id_not_in_pendingFor st date b hnd hb hmem)]
      exact find?_of_mem_nodup_booking st.bookings b hb hnd
  · show (autoRun st date).made ≤ _
    rw [hMade]
    exact List.countP_le_length _

/-! ### Unconditional structure of the phases -/

theorem phase1_untouched (avail : List User) (wd : Nat) (todo : List Booking) :
    ∀ (s : AutoState) (j : Nat), j ∉ todo.map (fun b => b.id) →
      getBooking (phase1 avail wd todo s).1.st j = getBooking s.st j := by
  induction todo with
  | nil => intro s j _; rfl
  | cons b rest ih =>
    intro s j hj
    rw [List.map_cons, List.mem_cons] at hj
    push_neg at hj
    cases hd : defaultChoice s avail wd b with
    | some d =>
      rw [show phase1 avail wd (b :: rest) s =
        phase1 avail wd rest (assignStep s b.id d) from by rw [phase1, hd]]
      rw [ih (assignStep s b.id d) j hj.2]
      exact getBooking_updateBooking_other s.st b.id j (assignPatch d) hj.1
    | none =>
      rw [show phase1 avail wd (b :: rest) s =
        ((phase1 avail wd rest s).1, b :: (phase1 avail wd rest s).2) from
          by rw [phase1, hd]]
      exact ih s j hj.2

theorem phase2_untouched (avail : List User) (wd : Nat) (todo : List Booking) :
    ∀ (s : AutoState) (j : Nat), j ∉ todo.map (fun b => b.id) →
      getBooking (phase2 avail wd todo s).st j = getBooking s.st j := by
  induction todo with
  | nil => intro s j _; rfl
  | cons b rest ih =>
    intro s j hj
    rw [List.map_cons, List.mem_cons] at hj
    push_neg at hj
    cases hf : (sortByCnt s.cnt avail).find? (fun h => underCapacity s wd h.id) with
    | some h =>
      rw [show phase2 avail wd (b :: rest) s =
        phase2 avail wd rest (assignStep s b.id h.id) from by rw [phase2, hf]]
      rw [ih (assignStep s b.id h.id) j hj.2]
      exact getBooking_updateBooking_other s.st b.id j (assignPatch h.id) hj.1
    | none =>
      rw [show phase2 avail wd (b :: rest) s = phase2 avail wd rest s from
        by rw [phase2, hf]]
      exact ih s j hj.2

theorem phase1_rem_sublist (avail : List User) (wd : Nat) (todo : List Booking) :
    ∀ (s : AutoState), (phase1 avail wd todo s).2.Sublist todo := by
  induction todo with
  | nil => intro s; exact List.Sublist.refl _
  | cons b rest ih =>
    intro s
    cases hd : defaultChoice s avail wd b with
    | some d =>
      rw [show phase1 avail wd (b :: rest) s =
        phase1 avail wd rest (assignStep s b.id d) from by rw [phase1, hd]]
      exact (ih (assignStep s b.id d)).cons b
    | none =>
      rw [show phase1 avail wd (b :: rest) s =
        ((phase1 avail wd rest s).1, b :: (phase1 avail wd rest s).2) from
          by rw [phase1, hd]]
      exact (ih s).cons₂ b

theorem phase1_append (avail : List User) (wd : Nat) (l1 l2 : List Booking) :
    ∀ (s : AutoState),
    phase1 avail wd (l1 ++ l2) s =
      ((phase1 avail wd l2 (phase1 avail wd l1 s).1).1,
       (phase1 avail wd l1 s).2 ++ (phase1 avail wd l2 (phase1 avail wd l1 s).1).2) := by
  induction l1 with
  | nil =>
    intro s
    show phase1 avail wd l2 s = _
    rw [show phase1 avail wd ([] : List Booking) s = (s, []) from rfl]
    rw [List.nil_append]
  | cons b rest ih =>
    intro s
    rw [List.cons_append]
    cases hd : defaultChoice s avail wd b with
    | some d =>
      rw [show phase1 avail wd (b :: (rest ++ l2)) s =
        phase1 avail wd (rest ++ l2) (assignStep s b.id d) from by rw [phase1, hd]]
      rw [ih (assignStep s b.id d)]
      rw [show phase1 avail wd (b :: rest) s =
        phase1 avail wd rest (assignStep s b.id d) from by rw [phase1, hd]]
    | none =>
      rw [show phase1 avail wd (b :: (rest ++ l2)) s =
        ((phase1 avail wd (rest ++ l2) s).1,
          b :: (phase1 avail wd (rest ++ l2) s).2) from by rw [phase1, hd]]
      rw [ih s]
      rw [show phase1 avail wd (b :: rest) s =
        ((phase1 avail wd rest s).1, b :: (phase1 avail wd rest s).2) from
          by rw [phase1, hd]]
      rw [List.cons_append]

theorem phase2_append (avail : List User) (wd : Nat) (l1 l2 : List Booking) :
    ∀ (s : AutoState),
    phase2 avail wd (l1 ++ l2) s = phase2 avail wd l2 (phase2 avail wd l1 s) := by
  induction l1 with
  | nil => intro s; rfl
  | cons b rest ih =>
    intro s
    rw [List.cons_append]
    cases hf : (sortByCnt s.cnt avail).find? (fun h => underCapacity s wd h.id) with
    | some h =>
      rw [show phase2 avail wd (b :: (rest ++ l2)) s =
        phase2 avail wd (rest ++ l2) (assignStep s b.id h.id) from by rw [phase2, hf]]
      rw [ih (assignStep s b.id h.id)]
      rw [show phase2 avail wd (b :: rest) s =
        phase2 avail wd rest (assignStep s b.id h.id) from by rw [phase2, hf]]
    | none =>
      rw [show phase2 avail wd (b :: (rest ++ l2)) s =
        phase2 avail wd (rest ++ l2) s from by rw [phase2, hf]]
      rw [ih s]
      rw [show phase2 avail wd (b :: rest) s = phase2 avail wd rest s from
        by rw [phase2, hf]]

theorem phase1_availability (avail : List User) (wd : Nat) (todo : List Booking) :
    ∀ (s : AutoState),
    (phase1 avail wd todo s).1.st.availability = s.st.availability := by
  induction todo with
  | nil => intro s; rfl
  | cons b rest ih =>
    intro s
    cases hd : defaultChoice s avail wd b with
    | some d =>
      rw [show phase1 avail wd (b :: rest) s =
        phase1 avail wd rest (assignStep s b.id d) from by rw [phase1, hd]]
      rw [ih (assignStep s b.id d)]
      exact assignStep_availability s b.id d
    | none =>
      rw [show phase1 avail wd (b :: rest) s =
        ((phase1 avail wd rest s).1, b :: (phase1 avail wd rest s).2) from
          by rw [phase1, hd]]
      exact ih s

theorem phase1_properties (avail : List User) (wd : Nat) (todo : List Booking) :
    ∀ (s : AutoState),
    (phase1 avail wd todo s).1.st.properties = s.st.properties := by
  induction todo with
  | nil => intro s; rfl
  | cons b rest ih =>
    intro s
    cases hd : defaultChoice s avail wd b with
    | some d =>
      rw [show phase1 avail wd (b :: rest) s =
        phase1 avail wd rest (assignStep s b.id d) from by rw [phase1, hd]]
      rw [ih (assignStep s b.id d)]
      exact updateBooking_properties s.st b.id (assignPatch d)
    | none =>
      rw [show phase1 avail wd (b :: rest) s =
        ((phase1 avail wd rest s).1, b :: (phase1 avail wd rest s).2) from
          by rw [phase1, hd]]
      exact ih s

theorem defaultChoice_eq_some (s : AutoState) (avail : List User) (wd : Nat)
    (b : Booking) (prop : Property) (d : Nat)
    (hprop : getProperty s.st b.propertyId = some prop)
    (hdef : prop.defaultHousekeeperId = some d)
    (hd0 : d ≠ 0)
    (hany : (avail.any (fun h => h.id == d)) = true)
    (hcap : underCapacity s wd d = true) :
    defaultChoice s avail wd b = some d := by
  unfold defaultChoice
  rw [hprop]
  show (match prop.defaultHousekeeperId with
    | none => none
    | some d =>
      if d != 0 && (avail.any (fun h => h.id == d)) && underCapacity s wd d then
        some d
      else none) = some d
  rw [hdef]
  show (if d != 0 && (avail.any (fun h => h.id == d)) && underCapacity s wd d then
    some d else none) = some d
  simp [hd0, hany, hcap]

/-- C5. Default-staff precedence: a pending obligation whose property
carries a default housekeeper that is among the available housekeepers,
has a window for the date's weekday, and whose running count at that
obligation's phase-1 turn is strictly below the window's maxCleanings,
ends the auto-assign call stored as assigned to exactly that default
housekeeper and nobody else. -/
theorem phase1_default_precedence (st : MemStorage) (date : Nat)
    (pre post : List Booking) (b : Booking) (prop : Property) (d : Nat)
    (w : Window)
    (hnd : (st.bookings.map (fun x => x.id)).Nodup)
    (hpos : ∀ u ∈ st.users, u.id ≠ 0)
    (hsplit : pendingFor st date = pre ++ b :: post)
    (hprop : getProperty st b.propertyId = some prop)
    (hdef : prop.defaultHousekeeperId = some d)
    (havail : d ∈ availIdsOf (getAvailableHousekeepersForDate st date))
    (hw : firstWindow st d (getDay date) = some w)
    (hcap : (phase1 (getAvailableHousekeepersForDate st date) (getDay date) pre
      (initAuto st date)).1.cnt d < w.maxCleanings.getD 0) :
    getBooking (autoAssignHousekeepers st date).2 b.id =
      some { b with cleaningStatus := "assigned", housekeeperId := some d } := by
  have hbmem : b ∈ pendingFor st date := by
    rw [hsplit]
    simp
  have hp : ¬ (pendingFor st date).isEmpty = true := by
    rw [hsplit]
    simp
  have ha : ¬ (getAvailableHousekeepersForDate st date).isEmpty = true := by
    rcases List.mem_map.1 havail with ⟨u, hu, _⟩
    rw [List.isEmpty_iff]
    exact List.ne_nil_of_mem hu
  unfold autoAssignHousekeepers
  rw [if_neg hp, if_neg ha]
  show getBooking (autoRun st date).st b.id = _
  -- id disjointness facts from the worklist split
  have hndP := pendingFor_nodup st date hnd
  rw [hsplit, List.map_append, List.map_cons, List.nodup_append] at hndP
  obtain ⟨hndPre, hndMid, hDisjPM⟩ := hndP
  rw [List.nodup_cons] at hndMid
  have hbpre : b.id ∉ pre.map (fun x => x.id) := by
    intro hmem
    exact hDisjPM hmem (List.mem_cons_self ..)
  have hbpost : b.id ∉ post.map (fun x => x.id) := hndMid.1
  -- the record of b is untouched through the prefix of phase 1
  have hb0 : getBooking st b.id = some b :=
    find?_of_mem_nodup_booking st.bookings b
      ((pendingFor_sublist st date).subset hbmem) hnd
  have hbAtPre : getBooking (phase1 (getAvailableHousekeepersForDate st date)
      (getDay date) pre (initAuto st date)).1.st b.id = some b := by
    rw [phase1_untouched (getAvailableHousekeepersForDate st date) (getDay date)
      pre (initAuto st date) b.id hbpre]
    exact hb0
  -- the phase-1 guard fires for the default housekeeper at b's turn
  have hchoice : defaultChoice (phase1 (getAvailableHousekeepersForDate st date)
      (getDay date) pre (initAuto st date)).1
      (getAvailableHousekeepersForDate st date) (getDay date) b = some d := by
    have hd0 : d ≠ 0 := availIds_ne_zero st date d hpos havail
    have hany : ((getAvailableHousekeepersForDate st date).any
        (fun h => h.id == d)) = true := by
      rcases List.mem_map.1 havail with ⟨u, hu, hid⟩
      exact List.any_eq_true.2 ⟨u, hu, by simp [hid]⟩
    have hcap' : underCapacity (phase1 (getAvailableHousekeepersForDate st date)
        (getDay date) pre (initAuto st date)).1 (getDay date) d = true := by
      unfold underCapacity
      rw [firstWindow_congr st _ d (getDay date) (by
        rw [phase1_availability]
        rfl)]
      rw [hw]
      simpa using hcap
    refine defaultChoice_eq_some _ _ _ _ prop d ?_ hdef hd0 hany hcap'
    rw [getProperty_congr st _ b.propertyId (by
      rw [phase1_properties]
      rfl)]
    exact hprop
  -- after its turn, b is stored as assigned to d
  have hPfull : phase1 (getAvailableHousekeepersForDate st date) (getDay date)
      (pendingFor st date) (initAuto st date) =
      ((phase1 (getAvailableHousekeepersForDate st date) (getDay date)
          (b :: post) (phase1 (getAvailableHousekeepersForDate st date)
            (getDay date) pre (initAuto st date)).1).1,
        (phase1 (getAvailableHousekeepersForDate st date) (getDay date) pre
          (initAuto st date)).2 ++
        (phase1 (getAvailableHousekeepersForDate st date) (getDay date)
          (b :: post) (phase1 (getAvailableHousekeepersForDate st date)
            (getDay date) pre (initAuto st date)).1).2) := by
    rw [hsplit, phase1_append]
  have hstep : phase1 (getAvailableHousekeepersForDate st date) (getDay date)
      (b :: post) (phase1 (getAvailableHousekeepersForDate st date)
        (getDay date) pre (initAuto st date)).1 =
      phase1 (getAvailableHousekeepersForDate st date) (getDay date) post
        (assignStep (phase1 (getAvailableHousekeepersForDate st date)
          (getDay date) pre (initAuto st date)).1 b.id d) := by
    rw [phase1, hchoice]
  have hbAfterStep : getBooking (assignStep (phase1
      (getAvailableHousekeepersForDate st date) (getDay date) pre
      (initAuto st date)).1 b.id d).st b.id =
      some { b with cleaningStatus := "assigned", housekeeperId := some d } := by
    show getBooking (updateBooking _ b.id (assignPatch d)).2 b.id = _
    rw [getBooking_updateBooking_self _ b.id (assignPatch d) b hbAtPre]
    rw [applyBookingPatch_assign]
  have hS1Eq : (phase1 (getAvailableHousekeepersForDate st date) (getDay date)
      (pendingFor st date) (initAuto st date)).1 =
      (phase1 (getAvailableHousekeepersForDate st date) (getDay date) post
        (assignStep (phase1 (getAvailableHousekeepersForDate st date)
          (getDay date) pre (initAuto st date)).1 b.id d)).1 := by
    rw [hPfull, hstep]
  have hRemEq : (phase1 (getAvailableHousekeepersForDate st date) (getDay date)
      (pendingFor st date) (initAuto st date)).2 =
      (phase1 (getAvailableHousekeepersForDate st date) (getDay date) pre
        (initAuto st date)).2 ++
      (phase1 (getAvailableHousekeepersForDate st date) (getDay date) post
        (assignStep (phase1 (getAvailableHousekeepersForDate st date)
          (getDay date) pre (initAuto st date)).1 b.id d)).2 := by
    rw [hPfull, hstep]
  have hbAtS1 : getBooking (phase1 (getAvailableHousekeepersForDate st date)
      (getDay date) (pendingFor st date) (initAuto st date)).1.st b.id =
      some { b with cleaningStatus := "assigned", housekeeperId := some d } := by
    rw [hS1Eq]
    rw [phase1_untouched (getAvailableHousekeepersForDate st date) (getDay date)
      post _ b.id hbpost]
    exact hbAfterStep
  -- phase 2 only touches deferred bookings, whose ids avoid b.id
  have hbNotRem : b.id ∉ ((phase1 (getAvailableHousekeepersForDate st date)
      (getDay date) (pendingFor st date) (initAuto st date)).2).map
        (fun x => x.id) := by
    rw [hRemEq, List.map_append, List.mem_append]
    rintro (hmem | hmem)
    · exact hbpre (((phase1_rem_sublist (getAvailableHousekeepersForDate st date)
        (getDay date) pre (initAuto st date)).map (fun x => x.id)).subset hmem)
    · exact hbpost (((phase1_rem_sublist (getAvailableHousekeepersForDate st date)
        (getDay date) post _).map (fun x => x.id)).subset hmem)
  show getBooking (phase2 (getAvailableHousekeepersForDate st date) (getDay date)
    (phase1 (getAvailableHousekeepersForDate st date) (getDay date)
      (pendingFor st date) (initAuto st date)).2
    (phase1 (getAvailableHousekeepersForDate st date) (getDay date)
      (pendingFor st date) (initAuto st date)).1).st b.id = _
  rw [phase2_untouched (getAvailableHousekeepersForDate st date) (getDay date)
    _ _ b.id hbNotRem]
  exact hbAtS1

/-- C7. Fairness in phase 2: when, at the turn of a deferred obligation
(the phase-1 remainder split as pre2 ++ b :: post2, with the running
state re-sorted by count), the scan selects housekeeper h, then the call
indeed assigns b to h, and h's running count at that moment is less than
or equal to the count of every available housekeeper that has a weekday
window and is strictly under its maxCleanings. -/
theorem phase2_fairness (st : MemStorage) (date : Nat)
    (pre2 post2 : List Booking) (b : Booking) (h : User)
    (hsplit : (phase1 (getAvailableHousekeepersForDate st date) (getDay date)
      (pendingFor st date) (initAuto st date)).2 = pre2 ++ b :: post2)
    (hfind : (sortByCnt (phase2 (getAvailableHousekeepersForDate st date)
        (getDay date) pre2
        (phase1 (getAvailableHousekeepersForDate st date) (getDay date)
          (pendingFor st date) (initAuto st date)).1).cnt
        (getAvailableHousekeepersForDate st date)).find?
      (fun u => underCapacity (phase2 (getAvailableHousekeepersForDate st date)
        (getDay date) pre2
        (phase1 (getAvailableHousekeepersForDate st date) (getDay date)
          (pendingFor st date) (initAuto st date)).1) (getDay date) u.id) =
      some h) :
    autoRun st date =
      phase2 (getAvailableHousekeepersForDate st date) (getDay date) post2
        (assignStep (phase2 (getAvailableHousekeepersForDate st date)
          (getDay date) pre2
          (phase1 (getAvailableHousekeepersForDate st date) (getDay date)
            (pendingFor st date) (initAuto st date)).1) b.id h.id) ∧
    ∀ u ∈ getAvailableHousekeepersForDate st date,
      underCapacity (phase2 (getAvailableHousekeepersForDate st date)
        (getDay date) pre2
        (phase1 (getAvailableHousekeepersForDate st date) (getDay date)
          (pendingFor st date) (initAuto st date)).1) (getDay date) u.id =
        true →
      (phase2 (getAvailableHousekeepersForDate st date) (getDay date) pre2
        (phase1 (getAvailableHousekeepersForDate st date) (getDay date)
          (pendingFor st date) (initAuto st date)).1).cnt h.id ≤
      (phase2 (getAvailableHousekeepersForDate st date) (getDay date) pre2
        (phase1 (getAvailableHousekeepersForDate st date) (getDay date)
          (pendingFor st date) (initAuto st date)).1).cnt u.id := by
  constructor
  · show phase2 (getAvailableHousekeepersForDate st date) (getDay date)
      (phase1 (getAvailableHousekeepersForDate st date) (getDay date)
        (pendingFor st date) (initAuto st date)).2
      (phase1 (getAvailableHousekeepersForDate st date) (getDay date)
        (pendingFor st date) (initAuto st date)).1 = _
    rw [hsplit, phase2_append]
    rw [phase2, hfind]
  · exact find?_sorted_min _ _ _ h hfind

/-! ### Determinism: the call is a function of the five data tables -/

theorem getUser_core (st st' : MemStorage) (i : Nat) (h : coreEq st st') :
    getUser st i = getUser st' i := by
  unfold getUser
  rw [h.1]

theorem getBooking_core (st st' : MemStorage) (i : Nat) (h : coreEq st st') :
    getBooking st i = getBooking st' i := by
  unfold getBooking
  rw [h.2.2.1]

theorem pendingFor_core (st st' : MemStorage) (date : Nat) (h : coreEq st st') :
    pendingFor st date = pendingFor st' date := by
  unfold pendingFor getBookingsByCheckoutDate
  rw [h.2.2.1]

theorem assignedFor_core (st st' : MemStorage) (date : Nat) (h : coreEq st st') :
    assignedFor st date = assignedFor st' date := by
  unfold assignedFor getBookingsByCheckoutDate
  rw [h.2.2.1]

theorem getAvailable_core (st st' : MemStorage) (date : Nat) (h : coreEq st st') :
    getAvailableHousekeepersForDate st date =
      getAvailableHousekeepersForDate st' date := by
  unfold getAvailableHousekeepersForDate getTimeOffInDateRange
    getAvailabilitiesByHousekeeper
  rw [h.1, h.2.2.2.1, h.2.2.2.2]

theorem updateUser_core (st st' : MemStorage) (i : Nat) (p : UserPatch)
    (h : coreEq st st') :
    (updateUser st i p).1 = (updateUser st' i p).1 ∧
    coreEq (updateUser st i p).2 (updateUser st' i p).2 := by
  obtain ⟨hu, hp, hb, ha, ht⟩ := h
  unfold updateUser
  rw [hu]
  exact ⟨rfl, rfl, hp, hb, ha, ht⟩

theorem incNewCount_core (st st' : MemStorage) (i : Nat) (h : coreEq st st') :
    coreEq (incNewCount st i) (incNewCount st' i) := by
  unfold incNewCount
  rw [getUser_core st st' i h]
  cases getUser st' i with
  | none => exact h
  | some hk => exact (updateUser_core st st' hk.id _ h).2

theorem decPrevCount_eq_of_some (st : MemStorage) (i : Nat) (prev : User)
    (hg : getUser st i = some prev) :
    decPrevCount st i =
      (if prev.cleaningCount != 0 && decide (prev.cleaningCount > 0) then
        (updateUser st prev.id
          { cleaningCount := some (prev.cleaningCount - 1) }).2
      else st) := by
  unfold decPrevCount
  rw [hg]

theorem decPrevCount_core (st st' : MemStorage) (i : Nat) (h : coreEq st st') :
    coreEq (decPrevCount st i) (decPrevCount st' i) := by
  cases hg : getUser st' i with
  | none =>
    have hg2 : getUser st i = none := by rw [getUser_core st st' i h, hg]
    rw [show decPrevCount st i = st from by unfold decPrevCount; rw [hg2]]
    rw [show decPrevCount st' i = st' from by unfold decPrevCount; rw [hg]]
    exact h
  | some prev =>
    have hg2 : getUser st i = some prev := by rw [getUser_core st st' i h, hg]
    rw [decPrevCount_eq_of_some st i prev hg2,
      decPrevCount_eq_of_some st' i prev hg]
    by_cases hc : (prev.cleaningCount != 0 && decide (prev.cleaningCount > 0)) = true
    · rw [if_pos hc, if_pos hc]
      exact (updateUser_core st st' prev.id _ h).2
    · rw [if_neg hc, if_neg hc]
      exact h

theorem updateBookingCounts_core (st st' : MemStorage) (e : Booking)
    (p : BookingPatch) (h : coreEq st st') :
    coreEq (updateBookingCounts st e p) (updateBookingCounts st' e p) := by
  unfold updateBookingCounts
  by_cases hc : (truthyId p.housekeeperId &&
      !(p.housekeeperId.getD none == e.housekeeperId)) = true
  · rw [if_pos hc, if_pos hc]
    by_cases ht : truthyOpt e.housekeeperId = true
    · rw [if_pos ht, if_pos ht]
      exact decPrevCount_core _ _ _ (incNewCount_core st st' _ h)
    · rw [if_neg ht, if_neg ht]
      exact incNewCount_core st st' _ h
  · rw [if_neg hc, if_neg hc]
    exact h

theorem updateBooking_eq_of_some (st : MemStorage) (i : Nat)
    (p : BookingPatch) (e : Booking) (hg : getBooking st i = some e) :
    updateBooking st i p =
      ((updateFirstBooking (updateBookingCounts st e p).bookings i p).1,
       { updateBookingCounts st e p with
         bookings :=
           (updateFirstBooking (updateBookingCounts st e p).bookings
             i p).2 }) := by
  unfold updateBooking
  rw [hg]

theorem updateBooking_core (st st' : MemStorage) (i : Nat) (p : BookingPatch)
    (h : coreEq st st') :
    (updateBooking st i p).1 = (updateBooking st' i p).1 ∧
    coreEq (updateBooking st i p).2 (updateBooking st' i p).2 := by
  cases hg : getBooking st' i with
  | none =>
    have hg2 : getBooking st i = none := by rw [getBooking_core st st' i h, hg]
    rw [show updateBooking st i p = (none, st) from
      by unfold updateBooking; rw [hg2]]
    rw [show updateBooking st' i p = (none, st') from
      by unfold updateBooking; rw [hg]]
    exact ⟨rfl, h⟩
  | some e =>
    have hg2 : getBooking st i = some e := by rw [getBooking_core st st' i h, hg]
    rw [updateBooking_eq_of_some st i p e hg2,
      updateBooking_eq_of_some st' i p e hg]
    have hcounts := updateBookingCounts_core st st' e p h
    have hbeq : (updateBookingCounts st e p).bookings =
        (updateBookingCounts st' e p).bookings := by
      rw [updateBookingCounts_bookings, updateBookingCounts_bookings, h.2.2.1]
    rw [hbeq]
    exact ⟨rfl, hcounts.1, hcounts.2.1, rfl,
      hcounts.2.2.2.1, hcounts.2.2.2.2⟩

theorem underCapacity_core (s s' : AutoState) (wd i : Nat) (h : autoEq s s') :
    underCapacity s wd i = underCapacity s' wd i := by
  unfold underCapacity
  rw [firstWindow_congr s'.st s.st i wd h.1.2.2.2.1, h.2.1]

theorem defaultChoice_core (s s' : AutoState) (avail : List User) (wd : Nat)
    (b : Booking) (h : autoEq s s') :
    defaultChoice s avail wd b = defaultChoice s' avail wd b := by
  unfold defaultChoice
  rw [getProperty_congr s'.st s.st b.propertyId h.1.2.1]
  have hcap : underCapacity s wd = underCapacity s' wd :=
    funext (fun d => underCapacity_core s s' wd d h)
  rw [hcap]

theorem assignStep_core (s s' : AutoState) (bid hid : Nat) (h : autoEq s s') :
    autoEq (assignStep s bid hid) (assignStep s' bid hid) := by
  refine ⟨(updateBooking_core s.st s'.st bid (assignPatch hid) h.1).2, ?_, ?_⟩
  · show bump s.cnt hid = bump s'.cnt hid
    rw [h.2.1]
  · show s.made + 1 = s'.made + 1
    rw [h.2.2]

theorem phase1_core (avail : List User) (wd : Nat) (todo : List Booking) :
    ∀ (s s' : AutoState), autoEq s s' →
    autoEq (phase1 avail wd todo s).1 (phase1 avail wd todo s').1 ∧
    (phase1 avail wd todo s).2 = (phase1 avail wd todo s').2 := by
  induction todo with
  | nil => intro s s' h; exact ⟨h, rfl⟩
  | cons b rest ih =>
    intro s s' h
    rw [show phase1 avail wd (b :: rest) s =
      (match defaultChoice s avail wd b with
        | some d => phase1 avail wd rest (assignStep s b.id d)
        | none =>
          ((phase1 avail wd rest s).1, b :: (phase1 avail wd rest s).2)) from
        by rw [phase1]]
    rw [show phase1 avail wd (b :: rest) s' =
      (match defaultChoice s' avail wd b with
        | some d => phase1 avail wd rest (assignStep s' b.id d)
        | none =>
          ((phase1 avail wd rest s').1, b :: (phase1 avail wd rest s').2)) from
        by rw [phase1]]
    rw [defaultChoice_core s s' avail wd b h]
    cases defaultChoice s' avail wd b with
    | some d => exact ih _ _ (assignStep_core s s' b.id d h)
    | none =>
      obtain ⟨h1, h2⟩ := ih s s' h
      exact ⟨h1, by rw [h2]⟩

theorem phase2_core (avail : List User) (wd : Nat) (todo : List Booking) :
    ∀ (s s' : AutoState), autoEq s s' →
    autoEq (phase2 avail wd todo s) (phase2 avail wd todo s') := by
  induction todo with
  | nil => intro s s' h; exact h
  | cons b rest ih =>
    intro s s' h
    rw [show phase2 avail wd (b :: rest) s =
      (match (sortByCnt s.cnt avail).find? (fun u => underCapacity s wd u.id) with
        | some u => phase2 avail wd rest (assignStep s b.id u.id)
        | none => phase2 avail wd rest s) from by rw [phase2]]
    rw [show phase2 avail wd (b :: rest) s' =
      (match (sortByCnt s'.cnt avail).find?
          (fun u => underCapacity s' wd u.id) with
        | some u => phase2 avail wd rest (assignStep s' b.id u.id)
        | none => phase2 avail wd rest s') from by rw [phase2]]
    have hpred : (fun u : User => underCapacity s wd u.id) =
        (fun u : User => underCapacity s' wd u.id) :=
      funext (fun u => underCapacity_core s s' wd u.id h)
    rw [h.2.1, hpred]
    cases (sortByCnt s'.cnt avail).find? (fun u => underCapacity s' wd u.id) with
    | some u => exact ih _ _ (assignStep_core s s' b.id u.id h)
    | none => exact ih s s' h

theorem initAuto_core (st st' : MemStorage) (date : Nat) (h : coreEq st st') :
    autoEq (initAuto st date) (initAuto st' date) := by
  refine ⟨h, ?_, rfl⟩
  show seedCounts (availIdsOf (getAvailableHousekeepersForDate st date))
    (assignedFor st date) = (initAuto st' date).cnt
  rw [getAvailable_core st st' date h, assignedFor_core st st' date h]
  rfl

theorem autoRun_core (st st' : MemStorage) (date : Nat) (h : coreEq st st') :
    autoEq (autoRun st date) (autoRun st' date) := by
  unfold autoRun
  rw [getAvailable_core st st' date h, pendingFor_core st st' date h]
  obtain ⟨h1, h2⟩ := phase1_core (getAvailableHousekeepersForDate st' date)
    (getDay date) (pendingFor st' date) (initAuto st date) (initAuto st' date)
    (initAuto_core st st' date h)
  rw [h2]
  exact phase2_core _ _ _ _ _ h1

/-- C8. Determinism: two auto-assign runs from stores holding identical
users, properties, bookings, availability windows and time-off tables
(hence identical pending obligations in the same order, identical
eligible staff and identical starting per-staff counts; only the
internal id counters may differ) return the same assignment count and
stores that again agree on all five tables — in particular the same
bookings with the same assignees. -/
theorem autoAssign_deterministic (st st' : MemStorage) (date : Nat)
    (h : coreEq st st') :
    (autoAssignHousekeepers st date).1 = (autoAssignHousekeepers st' date).1 ∧
    coreEq (autoAssignHousekeepers st date).2
      (autoAssignHousekeepers st' date).2 := by
  unfold autoAssignHousekeepers
  rw [pendingFor_core st st' date h, getAvailable_core st st' date h]
  by_cases hp : (pendingFor st' date).isEmpty
  · rw [if_pos hp, if_pos hp]
    exact ⟨rfl, h⟩
  rw [if_neg hp, if_neg hp]
  by_cases ha : (getAvailableHousekeepersForDate st' date).isEmpty
  · rw [if_pos ha, if_pos ha]
    exact ⟨rfl, h⟩
  rw [if_neg ha, if_neg ha]
  have hr := autoRun_core st st' date h
  exact ⟨hr.2.2, hr.1⟩

/-! ### Manual assignment with unknown ids -/

theorem updateFirstBooking_fst (l : List Booking) (id : Nat) (p : BookingPatch)
    (b : Booking) (h : l.find? (fun x => x.id == id) = some b) :
    (updateFirstBooking l id p).1 = some (applyBookingPatch b p) := by
  induction l with
  | nil => simp at h
  | cons x rest ih =>
    rw [List.find?_cons] at h
    cases hx : x.id == id with
    | true =>
      rw [hx] at h
      cases h
      simp [updateFirstBooking, hx]
    | false =>
      rw [hx] at h
      simp [updateFirstBooking, hx, ih h]

/-- C9 (amended). Manual assignment with an unknown booking id returns
undefined and leaves the store untouched; but with an existing booking
and an unknown (nonzero) staff id it does not report not-found: it
returns the booking updated to that staff id with status assigned and
stores it, and no cleaningCount moves when the booking had no truthy
previous assignee. -/
theorem assign_unknown_ids (st : MemStorage) (bookingId hid : Nat) :
    (getBooking st bookingId = none →
      assignHousekeeperToBooking st bookingId hid = (none, st)) ∧
    (∀ b, getBooking st bookingId = some b → getUser st hid = none →
      hid ≠ 0 →
      (assignHousekeeperToBooking st bookingId hid).1 =
        some { b with cleaningStatus := "assigned",
                      housekeeperId := some hid } ∧
      getBooking (assignHousekeeperToBooking st bookingId hid).2 bookingId =
        some { b with cleaningStatus := "assigned",
                      housekeeperId := some hid } ∧
      (truthyOpt b.housekeeperId = false →
        (assignHousekeeperToBooking st bookingId hid).2.users = st.users)) := by
  constructor
  · intro hnone
    unfold assignHousekeeperToBooking updateBooking
    rw [hnone]
  · intro b hb huser h0
    refine ⟨?_, ?_, ?_⟩
    · show (updateBooking st bookingId (assignPatch hid)).1 = _
      rw [updateBooking_eq_of_some st bookingId (assignPatch hid) b hb]
      show (updateFirstBooking (updateBookingCounts st b (assignPatch hid)).bookings
        bookingId (assignPatch hid)).1 = _
      rw [updateBookingCounts_bookings]
      rw [updateFirstBooking_fst st.bookings bookingId (assignPatch hid) b hb]
      rw [applyBookingPatch_assign]
    · show getBooking (updateBooking st bookingId (assignPatch hid)).2 bookingId = _
      rw [getBooking_updateBooking_self st bookingId (assignPatch hid) b hb]
      rw [applyBookingPatch_assign]
    · intro hprev
      show (updateBooking st bookingId (assignPatch hid)).2.users = st.users
      rw [updateBooking_eq_of_some st bookingId (assignPatch hid) b hb]
      show (updateBookingCounts st b (assignPatch hid)).users = st.users
      unfold updateBookingCounts
      by_cases hcond : (truthyId (assignPatch hid).housekeeperId &&
          !((assignPatch hid).housekeeperId.getD none == b.housekeeperId)) = true
      · rw [if_pos hcond, hprev]
        show (incNewCount st hid).users = st.users
        unfold incNewCount
        rw [huser]
      · rw [if_neg hcond]

/-! ### The assignee-implies-not-pending invariant -/

theorem validAssign_assign (st : MemStorage) (bid hid : Nat)
    (h : ValidAssign st) :
    ValidAssign (assignHousekeeperToBooking st bid hid).2 := by
  intro x hx
  have hxmem : x ∈ (updateFirstBooking st.bookings bid (assignPatch hid)).2 := by
    rw [← updateBooking_bookings st bid (assignPatch hid)]
    exact hx
  rcases updateFirstBooking_mem st.bookings bid (assignPatch hid) x hxmem with
    hold | ⟨y, _, hy⟩
  · exact h x hold
  · intro _
    rw [hy, applyBookingPatch_assign]
    simp

theorem phase1_validAssign (avail : List User) (wd : Nat) (todo : List Booking) :
    ∀ (s : AutoState), ValidAssign s.st →
      ValidAssign (phase1 avail wd todo s).1.st := by
  induction todo with
  | nil => intro s h; exact h
  | cons b rest ih =>
    intro s h
    cases hd : defaultChoice s avail wd b with
    | some d =>
      rw [show phase1 avail wd (b :: rest) s =
        phase1 avail wd rest (assignStep s b.id d) from by rw [phase1, hd]]
      exact ih _ (validAssign_assign s.st b.id d h)
    | none =>
      rw [show phase1 avail wd (b :: rest) s =
        ((phase1 avail wd rest s).1, b :: (phase1 avail wd rest s).2) from
          by rw [phase1, hd]]
      exact ih s h

theorem phase2_validAssign (avail : List User) (wd : Nat) (todo : List Booking) :
    ∀ (s : AutoState), ValidAssign s.st →
      ValidAssign (phase2 avail wd todo s).st := by
  induction todo with
  | nil => intro s h; exact h
  | cons b rest ih =>
    intro s h
    cases hf : (sortByCnt s.cnt avail).find? (fun u => underCapacity s wd u.id) with
    | some u =>
      rw [show phase2 avail wd (b :: rest) s =
        phase2 avail wd rest (assignStep s b.id u.id) from by rw [phase2, hf]]
      exact ih _ (validAssign_assign s.st b.id u.id h)
    | none =>
      rw [show phase2 avail wd (b :: rest) s = phase2 avail wd rest s from
        by rw [phase2, hf]]
      exact ih s h

/-- C4 (amended). Assignment paths preserve the assignee-implies-not-
pending invariant: assignHousekeeperToBooking always writes status
assigned together with the assignee, and every mutation inside
autoAssignHousekeepers goes through it; but creation does not enforce
the invariant (syncPropertyCalendar creates bookings that are pending
with the property's default housekeeper already set, see the
counterexample), so the invariant does not hold in every reachable
state. -/
theorem validAssign_preserved (st : MemStorage) (h : ValidAssign st) :
    (∀ bid hid, ValidAssign (assignHousekeeperToBooking st bid hid).2) ∧
    (∀ date, ValidAssign (autoAssignHousekeepers st date).2) := by
  refine ⟨fun bid hid => validAssign_assign st bid hid h, ?_⟩
  intro date
  unfold autoAssignHousekeepers
  by_cases hp : (pendingFor st date).isEmpty
  · rw [if_pos hp]
    exact h
  rw [if_neg hp]
  by_cases ha : (getAvailableHousekeepersForDate st date).isEmpty
  · rw [if_pos ha]
    exact h
  rw [if_neg ha]
  show ValidAssign (autoRun st date).st
  unfold autoRun
  exact phase2_validAssign _ _ _ _ (phase1_validAssign _ _ _ _ h)

/-! ### cleaningCount consistency -/

theorem getUser_id (st : MemStorage) (uid : Nat) (u : User)
    (h : getUser st uid = some u) : u.id = uid := by
  simpa using List.find?_some h

theorem getUser_mem (st : MemStorage) (uid : Nat) (u : User)
    (h : getUser st uid = some u) : u ∈ st.users :=
  List.mem_of_find?_eq_some h

theorem consAt_of_consistent (st : MemStorage) (hc : countsConsistent st) :
    ConsAt st := by
  intro uid u hg
  rw [← getUser_id st uid u hg]
  exact hc u (getUser_mem st uid u hg)

theorem consistent_of_consAt (st : MemStorage)
    (hnd : (st.users.map (fun u => u.id)).Nodup) (hc : ConsAt st) :
    countsConsistent st :=
  fun u hu => hc u.id u (find?_of_mem_nodup_user st.users u hu hnd)

theorem getUser_updateUser_other (st : MemStorage) (i j : Nat) (p : UserPatch)
    (hj : j ≠ i) : getUser (updateUser st i p).2 j = getUser st j :=
  updateFirstUser_find?_other st.users i j p hj

theorem getUser_updateUser_self (st : MemStorage) (i : Nat) (p : UserPatch)
    (u : User) (h : getUser st i = some u) :
    getUser (updateUser st i p).2 i = some (applyUserPatch u p) :=
  updateFirstUser_find?_self st.users i p u h

theorem countAssignedTo_updateBooking (st : MemStorage) (i : Nat)
    (p : BookingPatch) (b : Booking) (uid : Nat)
    (hb : getBooking st i = some b) :
    countAssignedTo (updateBooking st i p).2 uid +
      (if b.housekeeperId == some uid then 1 else 0) =
    countAssignedTo st uid +
      (if (applyBookingPatch b p).housekeeperId == some uid then 1 else 0) := by
  unfold countAssignedTo
  rw [updateBooking_bookings]
  exact updateFirstBooking_countP st.bookings i p b _ hb

theorem countAssignedTo_pos (st : MemStorage) (b : Booking) (m : Nat)
    (hb : b ∈ st.bookings) (hm : b.housekeeperId = some m) :
    1 ≤ countAssignedTo st m := by
  unfold countAssignedTo
  have h : 0 < st.bookings.countP (fun x => x.housekeeperId == some m) :=
    List.countP_pos_iff.2 ⟨b, hb, by simp [hm]⟩
  omega

theorem incNewCount_none (st : MemStorage) (i : Nat)
    (hg : getUser st i = none) : incNewCount st i = st := by
  unfold incNewCount
  rw [hg]

theorem getUser_incNewCount_other (st : MemStorage) (i j : Nat) (hj : j ≠ i) :
    getUser (incNewCount st i) j = getUser st j := by
  unfold incNewCount
  cases hg : getUser st i with
  | none => rfl
  | some hk =>
    refine getUser_updateUser_other st hk.id j _ ?_
    rw [getUser_id st i hk hg]
    exact hj

theorem incNewCount_eq_of_some (st : MemStorage) (i : Nat) (hk : User)
    (hg : getUser st i = some hk) :
    incNewCount st i =
      (updateUser st hk.id
        { cleaningCount := some (hk.cleaningCount + 1) }).2 := by
  unfold incNewCount
  rw [hg]

theorem getUser_incNewCount_self (st : MemStorage) (i : Nat) (hk : User)
    (hg : getUser st i = some hk) :
    getUser (incNewCount st i) i =
      some { hk with cleaningCount := hk.cleaningCount + 1 } := by
  have hid := getUser_id st i hk hg
  subst hid
  rw [incNewCount_eq_of_some st hk.id hk hg,
    getUser_updateUser_self st hk.id _ hk hg]
  rfl

theorem decPrevCount_none (st : MemStorage) (i : Nat)
    (hg : getUser st i = none) : decPrevCount st i = st := by
  unfold decPrevCount
  rw [hg]

theorem getUser_decPrevCount_other (st : MemStorage) (i j : Nat) (hj : j ≠ i) :
    getUser (decPrevCount st i) j = getUser st j := by
  cases hg : getUser st i with
  | none => rw [decPrevCount_none st i hg]
  | some prev =>
    rw [decPrevCount_eq_of_some st i prev hg]
    by_cases hcpos : (prev.cleaningCount != 0 &&
        decide (prev.cleaningCount > 0)) = true
    · rw [if_pos hcpos]
      refine getUser_updateUser_other st prev.id j _ ?_
      rw [getUser_id st i prev hg]
      exact hj
    · rw [if_neg hcpos]

theorem getUser_decPrevCount_self_pos (st : MemStorage) (i : Nat) (prev : User)
    (hg : getUser st i = some prev) (hcpos : 0 < prev.cleaningCount) :
    getUser (decPrevCount st i) i =
      some { prev with cleaningCount := prev.cleaningCount - 1 } := by
  have hcond : (prev.cleaningCount != 0 && decide (prev.cleaningCount > 0)) =
      true := by
    have hne : prev.cleaningCount ≠ 0 := by omega
    simp [hne, hcpos]
  have hid := getUser_id st i prev hg
  subst hid
  rw [decPrevCount_eq_of_some st prev.id prev hg, if_pos hcond,
    getUser_updateUser_self st prev.id _ prev hg]
  rfl

/-! ### cleaningCount bookkeeping of the booking mutators -/

theorem getUser_ne_zero (st : MemStorage) (uid : Nat) (u : User)
    (hz : ∀ v ∈ st.users, v.id ≠ 0) (hg : getUser st uid = some u) :
    uid ≠ 0 := by
  rw [← getUser_id st uid u hg]
  exact hz u (getUser_mem st uid u hg)

theorem ids_ne_zero_of_map_eq (l l' : List User)
    (h : l'.map (fun u => u.id) = l.map (fun u => u.id))
    (hz : ∀ u ∈ l, u.id ≠ 0) : ∀ u ∈ l', u.id ≠ 0 := by
  intro u hu
  have hm : u.id ∈ l'.map (fun v => v.id) := List.mem_map_of_mem _ hu
  rw [h] at hm
  rcases List.mem_map.1 hm with ⟨v, hv, hvid⟩
  rw [← hvid]
  exact hz v hv

theorem countAssignedTo_incNewCount (st : MemStorage) (i uid : Nat) :
    countAssignedTo (incNewCount st i) uid = countAssignedTo st uid := by
  unfold countAssignedTo
  rw [incNewCount_bookings]

theorem countAssignedTo_decPrevCount (st : MemStorage) (i uid : Nat) :
    countAssignedTo (decPrevCount st i) uid = countAssignedTo st uid := by
  unfold countAssignedTo
  rw [decPrevCount_bookings]

theorem createBooking_snd (st : MemStorage) (d : InsertBooking) :
    (createBooking st d).2 =
      if truthyOpt d.housekeeperId then
        incNewCount (pushBooking st (newBookingOf st d)) (d.housekeeperId.getD 0)
      else pushBooking st (newBookingOf st d) := rfl

theorem countAssignedTo_pushBooking (st : MemStorage) (b : Booking) (uid : Nat) :
    countAssignedTo (pushBooking st b) uid =
      countAssignedTo st uid +
        (if b.housekeeperId == some uid then 1 else 0) := by
  unfold countAssignedTo pushBooking
  rw [List.countP_append]
  simp [List.countP_cons]

theorem consAt_createBooking (st : MemStorage) (d : InsertBooking)
    (hz : ∀ u ∈ st.users, u.id ≠ 0) (hc : ConsAt st) :
    ConsAt (createBooking st d).2 := by
  rw [createBooking_snd]
  cases htr : truthyOpt d.housekeeperId with
  | false =>
    rw [if_neg (by simp [htr])]
    intro uid u hgu
    have hgu' : getUser st uid = some u := hgu
    have huid0 : uid ≠ 0 := getUser_ne_zero st uid u hz hgu'
    have hcnt : countAssignedTo (pushBooking st (newBookingOf st d)) uid =
        countAssignedTo st uid := by
      rw [countAssignedTo_pushBooking]
      have hbf : ((newBookingOf st d).housekeeperId == some uid) = false := by
        show (d.housekeeperId == some uid) = false
        cases hdh : d.housekeeperId with
        | none => rfl
        | some k =>
          have hk0 : k = 0 := by rw [hdh] at htr; simpa [truthyOpt] using htr
          subst hk0
          simp
          omega
      rw [hbf]
      simp
    rw [hcnt]
    exact hc uid u hgu'
  | true =>
    rw [if_pos rfl]
    obtain ⟨n, hn⟩ : ∃ n, d.housekeeperId = some n := by
      cases hdh : d.housekeeperId with
      | none => rw [hdh] at htr; exact absurd htr (by simp [truthyOpt])
      | some k => exact ⟨k, rfl⟩
    have hn0 : n ≠ 0 := by rw [hn] at htr; simpa [truthyOpt] using htr
    have hget : d.housekeeperId.getD 0 = n := by rw [hn]; rfl
    rw [hget]
    intro uid u hgu
    have hcnt1 : countAssignedTo
        (incNewCount (pushBooking st (newBookingOf st d)) n) uid =
        countAssignedTo (pushBooking st (newBookingOf st d)) uid :=
      countAssignedTo_incNewCount _ n uid
    by_cases huidn : uid = n
    · subst huidn
      cases hgn : getUser st uid with
      | none =>
        have h1 : getUser (pushBooking st (newBookingOf st d)) uid = none := hgn
        rw [incNewCount_none _ uid h1] at hgu
        have h2 : getUser st uid = some u := hgu
        rw [hgn] at h2
        exact Option.noConfusion h2
      | some hk =>
        have h1 : getUser (pushBooking st (newBookingOf st d)) uid = some hk := hgn
        rw [getUser_incNewCount_self _ uid hk h1] at hgu
        injection hgu with hu
        subst hu
        have hcu := hc uid hk hgn
        have hcnt2 : countAssignedTo (pushBooking st (newBookingOf st d)) uid =
            countAssignedTo st uid + 1 := by
          rw [countAssignedTo_pushBooking]
          have hbt : ((newBookingOf st d).housekeeperId == some uid) = true := by
            show (d.housekeeperId == some uid) = true
            rw [hn]
            simp
          rw [hbt]
          simp
        rw [hcnt1, hcnt2]
        have hproj : ({ hk with cleaningCount := hk.cleaningCount + 1 } :
            User).cleaningCount = hk.cleaningCount + 1 := rfl
        rw [hproj, hcu]
        push_cast
        ring
    · have h2 : getUser
          (incNewCount (pushBooking st (newBookingOf st d)) n) uid =
          getUser st uid := getUser_incNewCount_other _ n uid huidn
      rw [h2] at hgu
      have hcnt2 : countAssignedTo (pushBooking st (newBookingOf st d)) uid =
          countAssignedTo st uid := by
        rw [countAssignedTo_pushBooking]
        have hbf : ((newBookingOf st d).housekeeperId == some uid) = false := by
          show (d.housekeeperId == some uid) = false
          rw [hn]
          simp
          omega
        rw [hbf]
        simp
      rw [hcnt1, hcnt2]
      exact hc uid u hgu

theorem ite_true_one : (if (true : Bool) = true then (1 : Nat) else 0) = 1 := rfl

theorem ite_false_zero : (if (false : Bool) = true then (1 : Nat) else 0) = 0 := rfl

theorem consAt_updateBooking (st : MemStorage) (i : Nat) (p : BookingPatch)
    (hz : ∀ u ∈ st.users, u.id ≠ 0)
    (hp : p.housekeeperId = none ∨
      ∃ n, n ≠ 0 ∧ p.housekeeperId = some (some n))
    (hc : ConsAt st) : ConsAt (updateBooking st i p).2 := by
  cases hb : getBooking st i with
  | none =>
    have he : (updateBooking st i p).2 = st := by
      unfold updateBooking
      rw [hb]
    rw [he]
    exact hc
  | some b =>
    have hbmem : b ∈ st.bookings := List.mem_of_find?_eq_some hb
    have hzc : ∀ v ∈ (updateBookingCounts st b p).users, v.id ≠ 0 :=
      ids_ne_zero_of_map_eq st.users _ (updateBookingCounts_users_map_id st b p) hz
    have hgub : ∀ j, getUser (updateBooking st i p).2 j =
        getUser (updateBookingCounts st b p) j := by
      intro j
      rw [updateBooking_eq_of_some st i p b hb]
      rfl
    have happ : (applyBookingPatch b p).housekeeperId =
        p.housekeeperId.getD b.housekeeperId := rfl
    intro uid u hgu
    rw [hgub uid] at hgu
    have huid0 : uid ≠ 0 := getUser_ne_zero _ uid u hzc hgu
    have hacc' := countAssignedTo_updateBooking st i p b uid hb
    rcases hp with hpn | ⟨n, hn0, hpn⟩
    · have hcondf : (truthyId p.housekeeperId &&
          !(p.housekeeperId.getD none == b.housekeeperId)) = false := by
        rw [hpn]
        simp [truthyId]
      have hstc : updateBookingCounts st b p = st := by
        unfold updateBookingCounts
        rw [if_neg (by simp [hcondf])]
      rw [hstc] at hgu
      have happ2 : (applyBookingPatch b p).housekeeperId = b.housekeeperId := by
        rw [happ, hpn]
        rfl
      rw [happ2] at hacc'
      have hceq : countAssignedTo (updateBooking st i p).2 uid =
          countAssignedTo st uid := by omega
      rw [hceq]
      exact hc uid u hgu
    · have happ2 : (applyBookingPatch b p).housekeeperId = some n := by
        rw [happ, hpn]
        rfl
      by_cases heq : b.housekeeperId = some n
      · have hcondf : (truthyId p.housekeeperId &&
            !(p.housekeeperId.getD none == b.housekeeperId)) = false := by
          rw [hpn, heq]
          simp
        have hstc : updateBookingCounts st b p = st := by
          unfold updateBookingCounts
          rw [if_neg (by simp [hcondf])]
        rw [hstc] at hgu
        rw [happ2, heq] at hacc'
        have hceq : countAssignedTo (updateBooking st i p).2 uid =
            countAssignedTo st uid := by omega
        rw [hceq]
        exact hc uid u hgu
      · have hcondt : (truthyId p.housekeeperId &&
            !(p.housekeeperId.getD none == b.housekeeperId)) = true := by
          rw [hpn]
          simp [truthyId, hn0]
          exact fun h => heq h.symm
        have hstc : updateBookingCounts st b p =
            (if truthyOpt b.housekeeperId then
              decPrevCount (incNewCount st n) (b.housekeeperId.getD 0)
            else incNewCount st n) := by
          unfold updateBookingCounts
          rw [if_pos hcondt, hpn]
          rfl
        rw [happ2] at hacc'
        by_cases htr : truthyOpt b.housekeeperId = true
        · obtain ⟨m, hm⟩ : ∃ m, b.housekeeperId = some m := by
            cases hbk : b.housekeeperId with
            | none => rw [hbk] at htr; exact absurd htr (by simp [truthyOpt])
            | some k => exact ⟨k, rfl⟩
          have hmn : m ≠ n := fun h => heq (by rw [hm, h])
          have hstc2 : updateBookingCounts st b p =
              decPrevCount (incNewCount st n) m := by
            rw [hstc, htr, hm]
            rfl
          rw [hstc2] at hgu
          rw [hm] at hacc'
          by_cases huidn : uid = n
          · subst huidn
            have hdp : getUser (decPrevCount (incNewCount st uid) m) uid =
                getUser (incNewCount st uid) uid :=
              getUser_decPrevCount_other _ m uid (fun h => hmn h.symm)
            rw [hdp] at hgu
            cases hgn : getUser st uid with
            | none =>
              rw [incNewCount_none st uid hgn, hgn] at hgu
              exact Option.noConfusion hgu
            | some hk =>
              rw [getUser_incNewCount_self st uid hk hgn] at hgu
              injection hgu with hu
              subst hu
              have hcu := hc uid hk hgn
              have hif1 : (some m == some uid) = false := by simp; omega
              have hif2 : ((some uid : Option Nat) == some uid) = true := by simp
              rw [hif1, hif2, ite_false_zero, ite_true_one] at hacc'
              have hproj : ({ hk with cleaningCount := hk.cleaningCount + 1 } :
                  User).cleaningCount = hk.cleaningCount + 1 := rfl
              rw [hproj, hcu]
              omega
          · by_cases huidm : uid = m
            · subst huidm
              have hinc : getUser (incNewCount st n) uid = getUser st uid :=
                getUser_incNewCount_other st n uid huidn
              cases hgm : getUser st uid with
              | none =>
                have h3 : getUser (incNewCount st n) uid = none := by
                  rw [hinc]; exact hgm
                rw [decPrevCount_none _ uid h3, h3] at hgu
                exact Option.noConfusion hgu
              | some prev =>
                have hcprev := hc uid prev hgm
                have hpos : 1 ≤ countAssignedTo st uid :=
                  countAssignedTo_pos st b uid hbmem hm
                have hppos : 0 < prev.cleaningCount := by omega
                have h3 : getUser (incNewCount st n) uid = some prev := by
                  rw [hinc]; exact hgm
                rw [getUser_decPrevCount_self_pos _ uid prev h3 hppos] at hgu
                injection hgu with hu
                subst hu
                have hif1 : ((some uid : Option Nat) == some uid) = true := by
                  simp
                have hif2 : (some n == some uid) = false := by simp; omega
                rw [hif1, hif2, ite_false_zero, ite_true_one] at hacc'
                have hproj : ({ prev with cleaningCount :=
                    prev.cleaningCount - 1 } : User).cleaningCount =
                    prev.cleaningCount - 1 := rfl
                rw [hproj, hcprev]
                omega
            · have h4 : getUser st uid = some u := by
                rw [← getUser_incNewCount_other st n uid huidn,
                  ← getUser_decPrevCount_other (incNewCount st n) m uid huidm]
                exact hgu
              have hif1 : (some m == some uid) = false := by simp; omega
              have hif2 : (some n == some uid) = false := by simp; omega
              rw [hif1, hif2, ite_false_zero] at hacc'
              have hceq : countAssignedTo (updateBooking st i p).2 uid =
                  countAssignedTo st uid := by omega
              rw [hceq]
              exact hc uid u h4
        · have htrf : truthyOpt b.housekeeperId = false := by
            cases h' : truthyOpt b.housekeeperId
            · rfl
            · exact absurd h' htr
          have hstc2 : updateBookingCounts st b p = incNewCount st n := by
            rw [hstc, htrf]
            rfl
          have hbuid : (b.housekeeperId == some uid) = false := by
            cases hbk : b.housekeeperId with
            | none => rfl
            | some k =>
              have hk0 : k = 0 := by
                rw [hbk] at htrf
                simpa [truthyOpt] using htrf
              subst hk0
              simp
              omega
          rw [hstc2] at hgu
          rw [hbuid, ite_false_zero] at hacc'
          by_cases huidn : uid = n
          · subst huidn
            cases hgn : getUser st uid with
            | none =>
              rw [incNewCount_none st uid hgn, hgn] at hgu
              exact Option.noConfusion hgu
            | some hk =>
              rw [getUser_incNewCount_self st uid hk hgn] at hgu
              injection hgu with hu
              subst hu
              have hcu := hc uid hk hgn
              have hif2 : ((some uid : Option Nat) == some uid) = true := by
                simp
              rw [hif2, ite_true_one] at hacc'
              have hproj : ({ hk with cleaningCount := hk.cleaningCount + 1 } :
                  User).cleaningCount = hk.cleaningCount + 1 := rfl
              rw [hproj, hcu]
              omega
          · rw [getUser_incNewCount_other st n uid huidn] at hgu
            have hif2 : (some n == some uid) = false := by simp; omega
            rw [hif2, ite_false_zero] at hacc'
            have hceq : countAssignedTo (updateBooking st i p).2 uid =
                countAssignedTo st uid := by omega
            rw [hceq]
            exact hc uid u hgu

theorem filter_id_ne_of_find?_none (l : List Booking) (i : Nat)
    (h : l.find? (fun b => b.id == i) = none) :
    l.filter (fun b => b.id != i) = l := by
  apply List.filter_eq_self.mpr
  intro a ha
  have := List.find?_eq_none.1 h a ha
  simpa using this

theorem countP_erase_found (l : List Booking) (i : Nat) (b : Booking)
    (hnd : (l.map (fun x => x.id)).Nodup)
    (hf : l.find? (fun x => x.id == i) = some b) (q : Booking → Bool) :
    (l.filter (fun x => x.id != i)).countP q + (if q b then 1 else 0) =
      l.countP q := by
  induction l with
  | nil => simp at hf
  | cons x rest ih =>
    rw [List.map_cons, List.nodup_cons] at hnd
    rw [List.find?_cons] at hf
    cases hx : (x.id == i) with
    | true =>
      rw [hx] at hf
      cases hf
      have hxi : b.id = i := by simpa using hx
      have hxf : (b.id != i) = false := by simp [hxi]
      have hrest : rest.filter (fun y => y.id != i) = rest := by
        apply List.filter_eq_self.mpr
        intro a ha
        have hai : a.id ≠ i := by
          intro hai
          exact hnd.1 (by rw [hxi, ← hai]; exact List.mem_map_of_mem _ ha)
        simp [hai]
      rw [List.filter_cons, hxf]
      simp only [Bool.false_eq_true, if_false]
      rw [hrest, List.countP_cons]
    | false =>
      rw [hx] at hf
      have hxf : (x.id != i) = true := by simp [bne]; simpa using hx
      rw [List.filter_cons]
      simp only [hxf, if_true]
      rw [List.countP_cons, List.countP_cons]
      have hih := ih hnd.2 hf
      omega

theorem consAt_deleteBooking (st : MemStorage) (i : Nat)
    (hz : ∀ u ∈ st.users, u.id ≠ 0)
    (hndb : (st.bookings.map (fun b => b.id)).Nodup)
    (hc : ConsAt st) : ConsAt (deleteBooking st i).2 := by
  cases hb : getBooking st i with
  | none =>
    have he : (deleteBooking st i).2 =
        { st with bookings := st.bookings.filter (fun b => b.id != i) } := by
      unfold deleteBooking
      rw [hb]
    rw [he, filter_id_ne_of_find?_none st.bookings i hb]
    exact hc
  | some b =>
    have hbmem : b ∈ st.bookings := List.mem_of_find?_eq_some hb
    have he : (deleteBooking st i).2 =
        { (if truthyOpt b.housekeeperId then
            decPrevCount st (b.housekeeperId.getD 0) else st) with
          bookings :=
            (if truthyOpt b.housekeeperId then
              decPrevCount st (b.housekeeperId.getD 0) else st).bookings.filter
            (fun x => x.id != i) } := by
      unfold deleteBooking
      rw [hb]
    by_cases htr : truthyOpt b.housekeeperId = true
    · obtain ⟨m, hm⟩ : ∃ m, b.housekeeperId = some m := by
        cases hbk : b.housekeeperId with
        | none => rw [hbk] at htr; exact absurd htr (by simp [truthyOpt])
        | some k => exact ⟨k, rfl⟩
      have he2 : (deleteBooking st i).2 =
          { decPrevCount st m with
            bookings := st.bookings.filter (fun x => x.id != i) } := by
        rw [he, htr, hm]
        simp only [if_true]
        rw [decPrevCount_bookings]
        rfl
      rw [he2]
      intro uid u hgu
      have hgu' : getUser (decPrevCount st m) uid = some u := hgu
      have hcnt : countAssignedTo
          { decPrevCount st m with
            bookings := st.bookings.filter (fun x => x.id != i) } uid =
          (st.bookings.filter (fun x => x.id != i)).countP
            (fun x => x.housekeeperId == some uid) := rfl
      have hacc := countP_erase_found st.bookings i b hndb hb
        (fun x => x.housekeeperId == some uid)
      by_cases huidm : uid = m
      · subst huidm
        cases hgm : getUser st uid with
        | none =>
          rw [decPrevCount_none st uid hgm, hgm] at hgu'
          exact Option.noConfusion hgu'
        | some prev =>
          have hcprev := hc uid prev hgm
          have hpos : 1 ≤ countAssignedTo st uid :=
            countAssignedTo_pos st b uid hbmem hm
          have hppos : 0 < prev.cleaningCount := by omega
          rw [getUser_decPrevCount_self_pos st uid prev hgm hppos] at hgu'
          injection hgu' with hu
          subst hu
          have hifb : (b.housekeeperId == some uid) = true := by
            rw [hm]
            simp
          rw [hifb, ite_true_one] at hacc
          have hproj : ({ prev with cleaningCount :=
              prev.cleaningCount - 1 } : User).cleaningCount =
              prev.cleaningCount - 1 := rfl
          rw [hcnt, hproj, hcprev]
          unfold countAssignedTo at hpos ⊢
          omega
      · rw [getUser_decPrevCount_other st m uid huidm] at hgu'
        have hifb : (b.housekeeperId == some uid) = false := by
          rw [hm]
          simp
          omega
        rw [hifb, ite_false_zero] at hacc
        rw [hcnt]
        have hcu := hc uid u hgu'
        unfold countAssignedTo at hcu
        omega
    · have htrf : truthyOpt b.housekeeperId = false := by
        cases h' : truthyOpt b.housekeeperId
        · rfl
        · exact absurd h' htr
      have he2 : (deleteBooking st i).2 =
          { st with bookings := st.bookings.filter (fun x => x.id != i) } := by
        rw [he, htrf]
        rfl
      rw [he2]
      intro uid u hgu
      have hgu' : getUser st uid = some u := hgu
      have huid0 : uid ≠ 0 := getUser_ne_zero st uid u hz hgu'
      have hacc := countP_erase_found st.bookings i b hndb hb
        (fun x => x.housekeeperId == some uid)
      have hifb : (b.housekeeperId == some uid) = false := by
        cases hbk : b.housekeeperId with
        | none => rfl
        | some k =>
          have hk0 : k = 0 := by
            rw [hbk] at htrf
            simpa [truthyOpt] using htrf
          subst hk0
          simp
          omega
      rw [hifb, ite_false_zero] at hacc
      have hcu := hc uid u hgu'
      have hcnt : countAssignedTo
          { st with bookings := st.bookings.filter (fun x => x.id != i) } uid =
          (st.bookings.filter (fun x => x.id != i)).countP
            (fun x => x.housekeeperId == some uid) := rfl
      rw [hcnt]
      unfold countAssignedTo at hcu
      omega

theorem ccInv_updateBooking (st : MemStorage) (i : Nat) (p : BookingPatch)
    (hp : p.housekeeperId = none ∨
      ∃ n, n ≠ 0 ∧ p.housekeeperId = some (some n))
    (h : CCInv st) : CCInv (updateBooking st i p).2 := by
  obtain ⟨hz, hnd, hc⟩ := h
  have hm := updateBooking_users_map_id st i p
  exact ⟨ids_ne_zero_of_map_eq st.users _ hm hz, by rw [hm]; exact hnd,
    consAt_updateBooking st i p hz hp hc⟩

theorem ccInv_assign (st : MemStorage) (bid hid : Nat) (h0 : hid ≠ 0)
    (h : CCInv st) : CCInv (assignHousekeeperToBooking st bid hid).2 :=
  ccInv_updateBooking st bid (assignPatch hid) (Or.inr ⟨hid, h0, rfl⟩) h

theorem defaultChoice_ne_zero (s : AutoState) (avail : List User) (wd : Nat)
    (b : Booking) (d : Nat) (h : defaultChoice s avail wd b = some d) :
    d ≠ 0 := by
  unfold defaultChoice at h
  split at h
  · exact absurd h (by simp)
  · split at h
    · exact absurd h (by simp)
    · split at h
      · rename_i hg
        injection h with hdd
        subst hdd
        simp only [Bool.and_eq_true, bne_iff_ne, ne_eq] at hg
        exact hg.1.1
      · exact absurd h (by simp)

theorem phase1_ccInv (avail : List User) (wd : Nat) (todo : List Booking) :
    ∀ (s : AutoState), CCInv s.st → CCInv (phase1 avail wd todo s).1.st := by
  induction todo with
  | nil => intro s h; exact h
  | cons b rest ih =>
    intro s h
    cases hd : defaultChoice s avail wd b with
    | some d =>
      rw [show phase1 avail wd (b :: rest) s =
        phase1 avail wd rest (assignStep s b.id d) from by rw [phase1, hd]]
      exact ih _ (ccInv_assign s.st b.id d
        (defaultChoice_ne_zero s avail wd b d hd) h)
    | none =>
      rw [show phase1 avail wd (b :: rest) s =
        ((phase1 avail wd rest s).1, b :: (phase1 avail wd rest s).2) from
          by rw [phase1, hd]]
      exact ih s h

theorem phase2_ccInv (avail : List User) (wd : Nat) (todo : List Booking)
    (hza : ∀ u ∈ avail, u.id ≠ 0) :
    ∀ (s : AutoState), CCInv s.st → CCInv (phase2 avail wd todo s).st := by
  induction todo with
  | nil => intro s h; exact h
  | cons b rest ih =>
    intro s h
    cases hf : (sortByCnt s.cnt avail).find?
        (fun u => underCapacity s wd u.id) with
    | some u =>
      rw [show phase2 avail wd (b :: rest) s =
        phase2 avail wd rest (assignStep s b.id u.id) from by rw [phase2, hf]]
      have humem : u ∈ avail :=
        (mem_sortByCnt s.cnt u avail).1 (List.mem_of_find?_eq_some hf)
      exact ih _ (ccInv_assign s.st b.id u.id (hza u humem) h)
    | none =>
      rw [show phase2 avail wd (b :: rest) s = phase2 avail wd rest s from
        by rw [phase2, hf]]
      exact ih s h

theorem ccInv_autoAssign (st : MemStorage) (date : Nat) (h : CCInv st) :
    CCInv (autoAssignHousekeepers st date).2 := by
  unfold autoAssignHousekeepers
  by_cases hp : (pendingFor st date).isEmpty = true
  · rw [if_pos hp]
    exact h
  rw [if_neg hp]
  by_cases ha : (getAvailableHousekeepersForDate st date).isEmpty = true
  · rw [if_pos ha]
    exact h
  rw [if_neg ha]
  show CCInv (autoRun st date).st
  unfold autoRun
  have hza : ∀ u ∈ getAvailableHousekeepersForDate st date, u.id ≠ 0 :=
    fun u hu => availIds_ne_zero st date u.id h.1 (List.mem_map_of_mem _ hu)
  exact phase2_ccInv _ _ _ hza _ (phase1_ccInv _ _ _ _ h)

theorem ccInv_createBooking (st : MemStorage) (d : InsertBooking)
    (h : CCInv st) : CCInv (createBooking st d).2 := by
  obtain ⟨hz, hnd, hc⟩ := h
  have hm : (createBooking st d).2.users.map (fun u => u.id) =
      st.users.map (fun u => u.id) := by
    rw [createBooking_snd]
    by_cases htr : truthyOpt d.housekeeperId = true
    · rw [if_pos htr]
      rw [incNewCount_users_map_id]
      rfl
    · rw [if_neg htr]
      rfl
  exact ⟨ids_ne_zero_of_map_eq st.users _ hm hz, by rw [hm]; exact hnd,
    consAt_createBooking st d hz hc⟩

theorem deleteBooking_users_map_id (st : MemStorage) (i : Nat) :
    (deleteBooking st i).2.users.map (fun u => u.id) =
      st.users.map (fun u => u.id) := by
  cases hb : getBooking st i with
  | none =>
    have he : (deleteBooking st i).2 =
        { st with bookings := st.bookings.filter (fun x => x.id != i) } := by
      unfold deleteBooking
      rw [hb]
    rw [he]
  | some b =>
    have he : (deleteBooking st i).2 =
        { (if truthyOpt b.housekeeperId then
            decPrevCount st (b.housekeeperId.getD 0) else st) with
          bookings :=
            (if truthyOpt b.housekeeperId then
              decPrevCount st (b.housekeeperId.getD 0) else st).bookings.filter
            (fun x => x.id != i) } := by
      unfold deleteBooking
      rw [hb]
    rw [he]
    by_cases htr : truthyOpt b.housekeeperId = true
    · rw [htr]
      show (decPrevCount st (b.housekeeperId.getD 0)).users.map
        (fun u => u.id) = st.users.map (fun u => u.id)
      exact decPrevCount_users_map_id st _
    · have htrf : truthyOpt b.housekeeperId = false := by
        cases h' : truthyOpt b.housekeeperId
        · rfl
        · exact absurd h' htr
      rw [htrf]
      rfl

/-- C3 (amended). The cleaningCount bookkeeping is kept consistent with
the stored bookings by booking creation, by booking updates whose patch
either omits housekeeperId or sets it to a nonzero id, by booking
deletion, by manual assignment to a nonzero staff id, and by
auto-assignment. The original claim fails for the two remaining
mutators: an update that sets housekeeperId to null skips the decrement,
and property deletion drops bookings without decrementing, see the
counterexample. -/
theorem cleaningCount_consistency (st : MemStorage)
    (hz : ∀ u ∈ st.users, u.id ≠ 0)
    (hnd : (st.users.map (fun u => u.id)).Nodup)
    (hndb : (st.bookings.map (fun b => b.id)).Nodup)
    (hc : countsConsistent st) :
    (∀ d, countsConsistent (createBooking st d).2) ∧
    (∀ i p, (p.housekeeperId = none ∨
        ∃ n, n ≠ 0 ∧ p.housekeeperId = some (some n)) →
      countsConsistent (updateBooking st i p).2) ∧
    (∀ i, countsConsistent (deleteBooking st i).2) ∧
    (∀ bid hid, hid ≠ 0 →
      countsConsistent (assignHousekeeperToBooking st bid hid).2) ∧
    (∀ date, countsConsistent (autoAssignHousekeepers st date).2) := by
  have hCC : CCInv st := ⟨hz, hnd, consAt_of_consistent st hc⟩
  refine ⟨?_, ?_, ?_, ?_, ?_⟩
  · intro d
    obtain ⟨z, nd, c⟩ := ccInv_createBooking st d hCC
    exact consistent_of_consAt _ nd c
  · intro i p hp
    obtain ⟨z, nd, c⟩ := ccInv_updateBooking st i p hp hCC
    exact consistent_of_consAt _ nd c
  · intro i
    have hm := deleteBooking_users_map_id st i
    exact consistent_of_consAt _ (by rw [hm]; exact hnd)
      (consAt_deleteBooking st i hz hndb (consAt_of_consistent st hc))
  · intro bid hid h0
    obtain ⟨z, nd, c⟩ := ccInv_assign st bid hid h0 hCC
    exact consistent_of_consAt _ nd c
  · intro date
    obtain ⟨z, nd, c⟩ := ccInv_autoAssign st date hCC
    exact consistent_of_consAt _ nd c

/-- C3 counterexample: from a consistent store, unassigning through
updateBooking with a null housekeeperId leaves the former assignee's
cleaningCount at 1 with zero carried bookings, and deleteProperty drops
the assigned booking without any decrement. -/
theorem cleaningCount_consistency_cex :
    countsConsistent stC3ex ∧
    ¬ countsConsistent
        (updateBooking stC3ex 1
          { cleaningStatus := some "pending", housekeeperId := some none }).2 ∧
    ¬ countsConsistent (deleteProperty stC3ex 1).2 := by
  refine ⟨?_, ?_, ?_⟩
  · unfold countsConsistent
    decide
  · unfold countsConsistent
    decide
  · unfold countsConsistent
    decide

theorem cleaningCount_consistency_witness :
    countsConsistent (assignHousekeeperToBooking stC3ex 1 1).2 :=
  ((cleaningCount_consistency stC3ex (by decide) (by decide) (by decide)
      (by unfold countsConsistent; decide)).2.2.2.1) 1 1 (by decide)

/-! ### Nonnegativity of cleaningCount -/

theorem nonneg_incNewCount (st : MemStorage) (i : Nat) (h : Nonneg st) :
    Nonneg (incNewCount st i) := by
  cases hg : getUser st i with
  | none =>
    rw [incNewCount_none st i hg]
    exact h
  | some hk =>
    rw [incNewCount_eq_of_some st i hk hg]
    intro u hu
    rcases updateFirstUser_mem st.users hk.id _ u hu with hmem | ⟨y, hy, hye⟩
    · exact h u hmem
    · rw [hye]
      have hk0 := h hk (getUser_mem st i hk hg)
      simp [applyUserPatch]
      omega

theorem nonneg_decPrevCount (st : MemStorage) (i : Nat) (h : Nonneg st) :
    Nonneg (decPrevCount st i) := by
  cases hg : getUser st i with
  | none =>
    rw [decPrevCount_none st i hg]
    exact h
  | some prev =>
    rw [decPrevCount_eq_of_some st i prev hg]
    by_cases hcond : (prev.cleaningCount != 0 &&
        decide (prev.cleaningCount > 0)) = true
    · rw [if_pos hcond]
      intro u hu
      rcases updateFirstUser_mem st.users prev.id _ u hu with hmem | ⟨y, hy, hye⟩
      · exact h u hmem
      · rw [hye]
        have hpos : 0 < prev.cleaningCount := by
          simp only [Bool.and_eq_true, decide_eq_true_eq] at hcond
          exact hcond.2
        simp [applyUserPatch]
        omega
    · rw [if_neg hcond]
      exact h

theorem nonneg_updateBookingCounts (st : MemStorage) (e : Booking)
    (p : BookingPatch) (h : Nonneg st) : Nonneg (updateBookingCounts st e p) := by
  unfold updateBookingCounts
  split
  · split
    · exact nonneg_decPrevCount _ _ (nonneg_incNewCount _ _ h)
    · exact nonneg_incNewCount _ _ h
  · exact h

theorem nonneg_updateBooking (st : MemStorage) (i : Nat) (p : BookingPatch)
    (h : Nonneg st) : Nonneg (updateBooking st i p).2 := by
  cases hb : getBooking st i with
  | none =>
    have he : (updateBooking st i p).2 = st := by
      unfold updateBooking
      rw [hb]
    rw [he]
    exact h
  | some b =>
    rw [updateBooking_eq_of_some st i p b hb]
    intro u hu
    exact nonneg_updateBookingCounts st b p h u hu

theorem nonneg_createBooking (st : MemStorage) (d : InsertBooking)
    (h : Nonneg st) : Nonneg (createBooking st d).2 := by
  rw [createBooking_snd]
  have h1 : Nonneg (pushBooking st (newBookingOf st d)) := fun u hu => h u hu
  by_cases htr : truthyOpt d.housekeeperId = true
  · rw [if_pos htr]
    exact nonneg_incNewCount _ _ h1
  · rw [if_neg htr]
    exact h1

theorem nonneg_deleteBooking (st : MemStorage) (i : Nat) (h : Nonneg st) :
    Nonneg (deleteBooking st i).2 := by
  cases hb : getBooking st i with
  | none =>
    have he : (deleteBooking st i).2 =
        { st with bookings := st.bookings.filter (fun b => b.id != i) } := by
      unfold deleteBooking
      rw [hb]
    rw [he]
    exact fun u hu => h u hu
  | some b =>
    have he : (deleteBooking st i).2 =
        { (if truthyOpt b.housekeeperId then
            decPrevCount st (b.housekeeperId.getD 0) else st) with
          bookings :=
            (if truthyOpt b.housekeeperId then
              decPrevCount st (b.housekeeperId.getD 0) else st).bookings.filter
            (fun x => x.id != i) } := by
      unfold deleteBooking
      rw [hb]
    rw [he]
    by_cases htr : truthyOpt b.housekeeperId = true
    · rw [htr]
      intro u hu
      exact nonneg_decPrevCount st _ h u hu
    · have htrf : truthyOpt b.housekeeperId = false := by
        cases h' : truthyOpt b.housekeeperId
        · rfl
        · exact absurd h' htr
      rw [htrf]
      exact fun u hu => h u hu

theorem nonneg_createUser (st : MemStorage) (d : InsertUser) (h : Nonneg st) :
    Nonneg (createUser st d).2 := by
  intro u hu
  rcases List.mem_append.1 hu with h1 | h1
  · exact h u h1
  · rw [List.mem_singleton.1 h1]

theorem nonneg_deleteUser (st : MemStorage) (i : Nat) (h : Nonneg st) :
    Nonneg (deleteUser st i).2 :=
  fun u hu => h u (List.mem_of_mem_filter hu)

theorem nonneg_updateUser_none (st : MemStorage) (i : Nat) (p : UserPatch)
    (hp : p.cleaningCount = none) (h : Nonneg st) :
    Nonneg (updateUser st i p).2 := by
  intro u hu
  rcases updateFirstUser_mem st.users i p u hu with hmem | ⟨y, hy, hye⟩
  · exact h u hmem
  · rw [hye]
    have hky := h y hy
    simp [applyUserPatch, hp]
    exact hky

theorem nonneg_updateProperty (st : MemStorage) (i : Nat) (q : PropertyPatch)
    (h : Nonneg st) : Nonneg (updateProperty st i q).2 := by
  unfold updateProperty
  cases hp : st.properties.find? (fun p => p.id == i) with
  | none => exact h
  | some p => exact fun u hu => h u hu

theorem phase1_nonneg (avail : List User) (wd : Nat) (todo : List Booking) :
    ∀ (s : AutoState), Nonneg s.st → Nonneg (phase1 avail wd todo s).1.st := by
  induction todo with
  | nil => intro s h; exact h
  | cons b rest ih =>
    intro s h
    cases hd : defaultChoice s avail wd b with
    | some d =>
      rw [show phase1 avail wd (b :: rest) s =
        phase1 avail wd rest (assignStep s b.id d) from by rw [phase1, hd]]
      exact ih _ (nonneg_updateBooking s.st b.id (assignPatch d) h)
    | none =>
      rw [show phase1 avail wd (b :: rest) s =
        ((phase1 avail wd rest s).1, b :: (phase1 avail wd rest s).2) from
          by rw [phase1, hd]]
      exact ih s h

theorem phase2_nonneg (avail : List User) (wd : Nat) (todo : List Booking) :
    ∀ (s : AutoState), Nonneg s.st → Nonneg (phase2 avail wd todo s).st := by
  induction todo with
  | nil => intro s h; exact h
  | cons b rest ih =>
    intro s h
    cases hf : (sortByCnt s.cnt avail).find?
        (fun u => underCapacity s wd u.id) with
    | some u =>
      rw [show phase2 avail wd (b :: rest) s =
        phase2 avail wd rest (assignStep s b.id u.id) from by rw [phase2, hf]]
      exact ih _ (nonneg_updateBooking s.st b.id (assignPatch u.id) h)
    | none =>
      rw [show phase2 avail wd (b :: rest) s = phase2 avail wd rest s from
        by rw [phase2, hf]]
      exact ih s h

theorem nonneg_autoAssign (st : MemStorage) (date : Nat) (h : Nonneg st) :
    Nonneg (autoAssignHousekeepers st date).2 := by
  unfold autoAssignHousekeepers
  by_cases hp : (pendingFor st date).isEmpty = true
  · rw [if_pos hp]
    exact h
  rw [if_neg hp]
  by_cases ha : (getAvailableHousekeepersForDate st date).isEmpty = true
  · rw [if_pos ha]
    exact h
  rw [if_neg ha]
  show Nonneg (autoRun st date).st
  unfold autoRun
  exact phase2_nonneg _ _ _ _ (phase1_nonneg _ _ _ _ h)

theorem nonneg_step (st st' : MemStorage) (h : Nonneg st) (hs : Step st st') :
    Nonneg st' := by
  cases hs with
  | ofCreateUser d => exact nonneg_createUser st d h
  | ofUpdateUser i p hp => exact nonneg_updateUser_none st i p hp h
  | ofDeleteUser i => exact nonneg_deleteUser st i h
  | ofCreateProperty d => exact fun u hu => h u hu
  | ofUpdateProperty i q => exact nonneg_updateProperty st i q h
  | ofDeleteProperty i => exact fun u hu => h u hu
  | ofCreateBooking d => exact nonneg_createBooking st d h
  | ofUpdateBooking i p => exact nonneg_updateBooking st i p h
  | ofDeleteBooking i => exact nonneg_deleteBooking st i h
  | ofAssign bid hid => exact nonneg_updateBooking st bid (assignPatch hid) h
  | ofAutoAssign date => exact nonneg_autoAssign st date h
  | ofSyncCreate prop ci co => exact nonneg_createBooking st _ h
  | ofCreateAvailability d => exact fun u hu => h u hu
  | ofUpdateAvailability i p => exact fun u hu => h u hu
  | ofDeleteAvailability i => exact fun u hu => h u hu
  | ofCreateTimeOff d => exact fun u hu => h u hu
  | ofUpdateTimeOff i p => exact fun u hu => h u hu
  | ofDeleteTimeOff i => exact fun u hu => h u hu

/-- C10 (implicit). From any store in which every cleaningCount is
nonnegative, every store reachable through the mutating operations keeps
every cleaningCount nonnegative: both decrement paths are guarded by a
positivity check, user creation initialises the counter to zero, and the
validated external user patch cannot write the counter. -/
theorem cleaningCount_nonneg (st0 st : MemStorage) (h0 : Nonneg st0)
    (hr : ReachableFrom st0 st) : Nonneg st := by
  induction hr with
  | refl => exact h0
  | step st1 st2 hr1 hs ih => exact nonneg_step st1 st2 ih hs

theorem cleaningCount_nonneg_witness :
    Nonneg (autoAssignHousekeepers stC3ex 0).2 :=
  cleaningCount_nonneg stC3ex _
    ((by decide : ∀ u ∈ stC3ex.users, (0 : Int) ≤ u.cleaningCount) :
      Nonneg stC3ex)
    (ReachableFrom.step stC3ex _ ReachableFrom.refl (Step.ofAutoAssign stC3ex 0))

/-! ### Concrete stores for the worked scenarios -/

theorem autoAssign_respects_capacity_witness :
    (stW.bookings.map (fun b => b.id)).Nodup ∧
    (∀ u ∈ stW.users, ∀ w ∈ firstWindow stW u.id (getDay 432000000),
      dayCount (autoAssignHousekeepers stW 432000000).2
        (startOfDay 432000000) (endOfDay 432000000) u.id ≤
          w.maxCleanings.getD 0) :=
  ⟨by decide, autoAssign_respects_capacity stW 432000000 (by decide)
    (by decide) (by decide)⟩

theorem autoAssign_count_exact_witness :
    (∀ u ∈ stW.users, u.id ≠ 0) ∧
    (autoAssignHousekeepers stW 432000000).1 =
      stW.bookings.countP (fun b => (b.cleaningStatus == "pending") &&
        (statusAt (autoAssignHousekeepers stW 432000000).2 b.id ==
          some "assigned")) :=
  ⟨by decide, (autoAssign_count_exact stW 432000000 (by decide) (by decide)).1⟩

theorem phase1_default_precedence_witness :
    getProperty stW 1 = some { id := 1, defaultHousekeeperId := some 1 } ∧
    getBooking (autoAssignHousekeepers stW 432000000).2 1 =
      some { id := 1, propertyId := 1, checkIn := 0, checkOut := 432000000,
             cleaningStatus := "assigned", housekeeperId := some 1 } :=
  ⟨by decide,
   phase1_default_precedence stW 432000000 []
     [{ id := 2, propertyId := 2, checkIn := 0, checkOut := 432010000,
        cleaningStatus := "pending", housekeeperId := none }]
     { id := 1, propertyId := 1, checkIn := 0, checkOut := 432000000,
       cleaningStatus := "pending", housekeeperId := none }
     { id := 1, defaultHousekeeperId := some 1 } 1
     { id := 1, housekeeperId := 1, dayOfWeek := 2, maxCleanings := some 2 }
     (by decide) (by decide) (by decide) (by decide) (by decide) (by decide)
     (by decide) (by decide)⟩

theorem phase2_fairness_witness :
    (sortByCnt p2preW.cnt (getAvailableHousekeepersForDate stW
        432000000)).find?
      (fun u => underCapacity p2preW (getDay 432000000) u.id) =
      some { id := 2, role := "housekeeper", cleaningCount := 0 } ∧
    (∀ u ∈ getAvailableHousekeepersForDate stW 432000000,
      underCapacity p2preW (getDay 432000000) u.id = true →
      p2preW.cnt 2 ≤ p2preW.cnt u.id) :=
  ⟨by decide,
   (phase2_fairness stW 432000000 [] []
     { id := 2, propertyId := 2, checkIn := 0, checkOut := 432010000,
       cleaningStatus := "pending", housekeeperId := none }
     { id := 2, role := "housekeeper", cleaningCount := 0 }
     (by decide) (by decide)).2⟩

theorem autoAssign_deterministic_witness :
    coreEq stW stW8 ∧
    (autoAssignHousekeepers stW 432000000).1 =
      (autoAssignHousekeepers stW8 432000000).1 ∧
    coreEq (autoAssignHousekeepers stW 432000000).2
      (autoAssignHousekeepers stW8 432000000).2 := by
  have hco : coreEq stW stW8 := by
    unfold coreEq
    decide
  have happ := autoAssign_deterministic stW stW8 432000000 hco
  exact ⟨hco, happ.1, happ.2⟩

theorem assign_unknown_ids_witness :
    getBooking stDex 7 = none ∧
    assignHousekeeperToBooking stDex 7 99 = (none, stDex) ∧
    ((assignHousekeeperToBooking stDex 1 99).1 =
        some { id := 1, propertyId := 1, checkIn := 0, checkOut := 5,
               cleaningStatus := "assigned", housekeeperId := some 99 } ∧
      getBooking (assignHousekeeperToBooking stDex 1 99).2 1 =
        some { id := 1, propertyId := 1, checkIn := 0, checkOut := 5,
               cleaningStatus := "assigned", housekeeperId := some 99 } ∧
      (truthyOpt none = false →
        (assignHousekeeperToBooking stDex 1 99).2.users = stDex.users)) :=
  ⟨by decide,
   (assign_unknown_ids stDex 7 99).1 (by decide),
   (assign_unknown_ids stDex 1 99).2
     { id := 1, propertyId := 1, checkIn := 0, checkOut := 5,
       cleaningStatus := "pending", housekeeperId := none }
     (by decide) (by decide) (by decide)⟩

/-- C9 counterexample: with a stored pending booking and an unknown
(nonexistent) staff id, the manual assignment does not report not-found:
it returns a booking record and changes the store. -/
theorem assign_unknown_staff_cex :
    getUser stDex 99 = none ∧
    (assignHousekeeperToBooking stDex 1 99).1.isSome = true ∧
    (assignHousekeeperToBooking stDex 1 99).2 ≠ stDex := by
  refine ⟨by decide, by decide, by decide⟩

theorem validAssign_preserved_witness :
    ValidAssign stDex ∧
    ValidAssign (assignHousekeeperToBooking stDex 1 2).2 := by
  have hV : ValidAssign stDex := by
    unfold ValidAssign
    decide
  exact ⟨hV, (validAssign_preserved stDex hV).1 1 2⟩

/-- C4 counterexample: calendar sync creates a booking that is pending
with the property default housekeeper already attached, so the
assignee-implies-not-pending invariant fails in a reachable state. -/
theorem validAssign_sync_cex :
    ValidAssign stC4ex ∧
    ¬ ValidAssign
      (syncCreateBooking stC4ex { id := 1, defaultHousekeeperId := some 1 }
        0 5).2 := by
  constructor
  · unfold ValidAssign
    decide
  · unfold ValidAssign
    decide

end ACS
